import Mathlib

/-!
# QuantLib `test-suite/fdheston.cpp`: a verification development

The C++ type `Real` is embedded as an arbitrary linearly ordered field `K`
(exact arithmetic, evaluable on `ℚ`); the functions that the code takes from
libraries (`std::pow`, `std::exp`, `boost::math::gamma_p_inv`, the evolver, the
integrator, ...) are parameters of the definitions.  Theorems that need the
meaning of `std::pow`, `std::exp` or `std::log` are stated over `ℝ` with the
real functions.  The C++ type `Size` is embedded as `ℕ`.
-/

namespace FdHeston

/-! ## Definitions -/

section Convergence

variable {K : Type} [LinearOrderedField K]

/-- The guard of `BOOST_ERROR` in `FdHestonTest::testFdmHestonConvergence`:
`std::fabs(expected - calculated)/expected > 0.02
   && std::fabs(expected - calculated) > 0.002`.
The value `true` means that the error is reported.  The quotient is that of
the field; it is the quotient of the code for `expected ≠ 0` only (at
`expected = 0` the code divides by zero), and the theorems about this guard
assume `expected ≠ 0`. -/
def convergenceErrorReported (expected calculated : K) : Bool :=
  decide (|expected - calculated| / expected > 0.02) &&
    decide (|expected - calculated| > 0.002)

end Convergence

section ZeroFlowStencil

variable {K : Type} [Field K]

/-- The local `eta` of `testTransformedZeroFlowBC`: `1.0/(hm*(hm+hp)*hp)`. -/
def stencilEta (hm hp : K) : K := 1 / (hm * (hm + hp) * hp)

/-- The local `a` of `testTransformedZeroFlowBC`:
`-eta*(square<Real>()(hm+hp) - hm*hm)`. -/
def stencilA (hm hp : K) : K :=
  -stencilEta hm hp * ((hm + hp) * (hm + hp) - hm * hm)

/-- The local `b` of `testTransformedZeroFlowBC`:
`eta*square<Real>()(hm+hp)`. -/
def stencilB (hm hp : K) : K := stencilEta hm hp * ((hm + hp) * (hm + hp))

/-- The local `c` of `testTransformedZeroFlowBC`: `-eta*hm*hm`. -/
def stencilC (hm hp : K) : K := -stencilEta hm hp * hm * hm

/-- The local `df` of `testTransformedZeroFlowBC`:
`a*q[i] + b*q[i+1] + c*q[i+2]`, as a function of the two spacings and of the
three values read from `q`. -/
def stencilDf (hm hp q0 q1 q2 : K) : K :=
  stencilA hm hp * q0 + stencilB hm hp * q1 + stencilC hm hp * q2

end ZeroFlowStencil

section SliceOffset

/-- The index expression `j + k*xGrid` of `testLSVCalibration`
(`pSlice[k] = p[j + k*xGrid]`), in unbounded arithmetic. -/
def sliceOffset (xGrid j k : ℕ) : ℕ := j + k * xGrid

/-- The same index expression as the machine computes it on the 64-bit
unsigned type `Size`. -/
def sliceOffsetSize (xGrid j k : ℕ) : ℕ := (j + (k * xGrid) % 2 ^ 64) % 2 ^ 64

end SliceOffset

section MaturityLoop

variable {K : Type} [LinearOrderedField K] {P : Type}

/-- What one pass of the maturity loop of `hestonFokkerPlanckFwdEquationTest`
does: the value of `t` on entry, the step size `dt`, the target times handed
to `evolver.step` in order, the value of `t` after the inner loop, and the
density that is then priced. -/
structure MaturityPass (K : Type) (P : Type) where
  tStart : K
  dt : K
  targets : List K
  tEnd : K
  density : P

/-- The inner loop
`for (Size i=0; i < tGridPerYear; ++i, t+=dt) evolver.step(p, t+dt);`
run for `n` remaining iterations from the state `(t, p)`.  It returns the
final `t`, the final `p` and the target times of the calls.  `step dt p s`
stands for `evolver.step(p, s)` after `evolver.setStep(dt)`. -/
def stepLoop (step : K → P → K → P) (dt : K) : ℕ → K → P → K × P × List K
  | 0, t, p => (t, p, [])
  | n + 1, t, p =>
    let r := stepLoop step dt n (t + dt) (step dt p (t + dt))
    (r.1, r.2.1, (t + dt) :: r.2.2)

/-- The outer loop over the maturities of `hestonFokkerPlanckFwdEquationTest`,
from the running time `t` and density `p`; `nextMaturityTime` ranges over the
year fractions of the maturities. -/
def maturityLoop (step : K → P → K → P) (tGridPerYear : ℕ) :
    K → P → List K → List (MaturityPass K P)
  | _, _, [] => []
  | t, p, nextMaturityTime :: rest =>
    let dt := (nextMaturityTime - t) / (tGridPerYear : K)
    let r := stepLoop step dt tGridPerYear t p
    ⟨t, dt, r.2.2, r.1, r.2.1⟩ :: maturityLoop step tGridPerYear r.1 r.2.1 rest

end MaturityLoop

section FokkerPlanck1D

variable {K : Type} [LinearOrderedField K]

/-- The observable actions of `fokkerPlanckPrice1D`: a read of the grid `x`
at a position, a write of the density `p` at a position, a call
`evolver.step(p, t)`, and the call of the integrator. -/
inductive Event (K : Type) where
  | read (i : ℤ)
  | write (i : ℤ)
  | step (t : K)
  | integrate

/-- The ways in which a run ends without a value: a failed `QL_REQUIRE` with
its message, an access outside an array (undefined behaviour in C++), and a
loop that is still running when the fuel of the model is used up. -/
inductive Failure where
  | required (msg : String)
  | outOfRange
  | outOfFuel
  deriving DecidableEq

/-- A computation that records its actions and may fail: the actions done so
far, and the value or the failure. -/
structure Exec (K : Type) (α : Type) where
  trace : List (Event K)
  result : Except Failure α

/-- Sequencing: the actions of a failed computation are kept, and nothing
after the failure is run. -/
def Exec.bind {K α β : Type} (m : Exec K α) (f : α → Exec K β) : Exec K β :=
  match m.result with
  | Except.error e => ⟨m.trace, Except.error e⟩
  | Except.ok a => ⟨m.trace ++ (f a).trace, (f a).result⟩

instance {K : Type} : Monad (Exec K) where
  pure a := ⟨[], Except.ok a⟩
  bind := Exec.bind

/-- Record one action. -/
def Exec.log {K : Type} (e : Event K) : Exec K Unit := ⟨[e], Except.ok ()⟩

/-- End the run with a failure. -/
def Exec.fail {K α : Type} (e : Failure) : Exec K α := ⟨[], Except.error e⟩

/-- The read `x[i]` of a QuantLib `Array` (and `*it` for an iterator at
position `i`): recorded, and undefined outside `[0, x.size())`. -/
def readGrid (x : List K) (i : ℤ) : Exec K K := do
  Exec.log (Event.read i)
  if 0 ≤ i then
    match x[i.toNat]? with
    | some v => pure v
    | none => Exec.fail Failure.outOfRange
  else Exec.fail Failure.outOfRange

/-- The write `p[i] = v`: recorded, and undefined outside `[0, p.size())`. -/
def writeDensity (p : List K) (i : ℤ) (v : K) : Exec K (List K) := do
  Exec.log (Event.write i)
  if 0 ≤ i ∧ i.toNat < p.length then pure (p.set i.toNat v)
  else Exec.fail Failure.outOfRange

/-- The macro `QL_REQUIRE(condition, message)`. -/
def QL_REQUIRE (condition : Bool) (message : String) : Exec K Unit :=
  if condition then pure () else Exec.fail (Failure.required message)

/-- The condition `x.size() > 3 && x[1] <= x0 && x[x.size()-2] >= x0` of
`fokkerPlanckPrice1D`, with the short-circuit evaluation of `&&`. -/
def sufficientMesher (x : List K) (x0 : K) : Exec K Bool :=
  if 3 < x.length then do
    let x1 ← readGrid x 1
    if x1 ≤ x0 then do
      let xn ← readGrid x ((x.length : ℤ) - 2)
      pure (decide (xn ≥ x0))
    else pure false
  else pure false

/-- The position returned by `std::upper_bound(x.begin(), x.end(), x0)`: that
of the first element greater than `x0`, and `x.size()` if there is none (the
result the standard specifies for a sorted range). -/
def upper_bound (x : List K) (x0 : K) : ℕ :=
  x.findIdx (fun xi => decide (x0 < xi))

/-- The seeding of the density `p` in `fokkerPlanckPrice1D`, from
`Array p(x.size(), 0.0)` to the end of the `if`/`else if`/`else`.  In the last
branch the values `*upperb` and `*lowerb`, already read by the two tests, are
used again. -/
def seedDensity (closeEnough : K → K → Bool) (x : List K) (x0 : K) :
    Exec K (List K) := do
  let p : List K := List.replicate x.length 0
  let upperb : ℤ := (upper_bound x x0 : ℕ)
  let lowerb : ℤ := upperb - 1
  let ub ← readGrid x upperb
  if closeEnough ub x0 then do
    let idx := upperb
    let xp ← readGrid x (idx + 1)
    let xm ← readGrid x (idx - 1)
    let dx := (xp - xm) / 2
    writeDensity p idx (1 / dx)
  else do
    let lb ← readGrid x lowerb
    if closeEnough lb x0 then do
      let idx := lowerb
      let xp ← readGrid x (idx + 1)
      let xm ← readGrid x (idx - 1)
      let dx := (xp - xm) / 2
      writeDensity p idx (1 / dx)
    else do
      let dx := ub - lb
      let lowerP := (ub - x0) / dx
      let upperP := (x0 - lb) / dx
      let lowerIdx := lowerb
      let upperIdx := upperb
      let lxp ← readGrid x (lowerIdx + 1)
      let lxm ← readGrid x (lowerIdx - 1)
      let lowerDx := (lxp - lxm) / 2
      let uxp ← readGrid x (upperIdx + 1)
      let uxm ← readGrid x (upperIdx - 1)
      let upperDx := (uxp - uxm) / 2
      let p1 ← writeDensity p lowerIdx (lowerP / lowerDx)
      writeDensity p1 upperIdx (upperP / upperDx)

/-- What `fokkerPlanckPrice1D` takes from the rest of the library:
`close_enough`, the step of the `DouglasScheme` (`evolverStep dt p t` is
`evolver.step(p, t)` after `evolver.setStep(dt)`), the payoff composed with
`std::exp`, the Gauss-Lobatto integral of the natural cubic spline through the
points `(x[i], payoffTimesDensity[i])` over `[x.front(), x.back()]`, and the
constant `QL_EPSILON`. -/
structure Collaborators (K : Type) where
  closeEnough : K → K → Bool
  evolverStep : K → List K → K → List K
  payoffOfExp : K → K
  integrate : List K → List K → K
  epsilon : K

/-- The loop `for (Time t=dt; t <= maturity+20*QL_EPSILON; t+=dt)
evolver.step(p, t);` from the state `(t, p)`, with `bound` for
`maturity+20*QL_EPSILON`; each iteration uses one unit of fuel. -/
def timeLoop (c : Collaborators K) (dt bound : K) : ℕ → K → List K → Exec K (List K)
  | 0, t, p => if t ≤ bound then Exec.fail Failure.outOfFuel else pure p
  | fuel + 1, t, p =>
    if t ≤ bound then do
      Exec.log (Event.step t)
      timeLoop c dt bound fuel (t + dt) (c.evolverStep dt p t)
    else pure p

/-- The function `fokkerPlanckPrice1D`, on the grid `x = mesher->locations(0)`. -/
def fokkerPlanckPrice1D (c : Collaborators K) (x : List K) (x0 maturity : K)
    (tGrid : ℕ) (fuel : ℕ) : Exec K K := do
  let ok ← sufficientMesher x x0
  QL_REQUIRE ok "insufficient mesher"
  let p ← seedDensity c.closeEnough x x0
  let dt := maturity / (tGrid : K)
  let p ← timeLoop c dt (maturity + 20 * c.epsilon) fuel dt p
  let payoffTimesDensity := List.zipWith (fun xi pi => c.payoffOfExp xi * pi) x p
  Exec.log Event.integrate
  pure (c.integrate x payoffTimesDensity)

/-- A run that does not end on a failed `QL_REQUIRE`. -/
def NotRequired {K α : Type} (m : Exec K α) : Prop :=
  ∀ msg, m.result ≠ Except.error (Failure.required msg)

end FokkerPlanck1D

section StationaryDistribution

/-- The functions of the C++ and boost libraries and of QuantLib's
`GammaFunction` that the code below calls: `std::pow`, `std::exp`, `std::log`,
`std::sqrt`, `GammaFunction().logValue` and `boost::math::gamma_p_inv`. -/
structure SpecialFunctions (K : Type) where
  pow : K → K → K
  exp : K → K
  log : K → K
  sqrt : K → K
  logValue : K → K
  gamma_p_inv : K → K → K

variable {K : Type} [LinearOrderedField K]

/-- The function `stationaryProbabilityFct`. -/
def stationaryProbabilityFct (m : SpecialFunctions K) (kappa theta sigma v : K) : K :=
  let alpha := 2 * kappa * theta / (sigma * sigma)
  let beta := alpha / theta
  m.pow beta alpha * m.pow v (alpha - 1) * m.exp (-beta * v - m.logValue alpha)

/-- The function `invStationaryDistributionFct`. -/
def invStationaryDistributionFct (m : SpecialFunctions K) (kappa theta sigma q : K) : K :=
  let alpha := 2 * kappa * theta / (sigma * sigma)
  let beta := alpha / theta
  m.gamma_p_inv alpha q / beta

/-- The argument `qMin + i*dq` of `createStationaryDistributionMesher`, with
`qMin = 0.01`, `qMax = 0.99` and `dq = (qMax-qMin)/(vGrid-1)`.  The loop that
evaluates it runs only for `vGrid ≥ 1`, where the subtraction on `Size` does
not wrap. -/
def quantileLevel (vGrid i : ℕ) : K :=
  let qMin : K := 0.01
  let qMax : K := 0.99
  let dq : K := (qMax - qMin) / ((vGrid - 1 : ℕ) : K)
  qMin + (i : K) * dq

/-- The vector `v` that `createStationaryDistributionMesher` fills and hands
to `Predefined1dMesher`. -/
def createStationaryDistributionMesher (m : SpecialFunctions K)
    (kappa theta sigma : K) (vGrid : ℕ) : List K :=
  (List.range vGrid).map
    (fun i => invStationaryDistributionFct m kappa theta sigma (quantileLevel vGrid i))

/-- The entry `q[i]` of `testTransformedZeroFlowBC` as a function of `v[i]`:
`Pow(v, alpha)*p` with `alpha = 1.0 - 2*kappa*theta/(sigma*sigma)` and
`p[i] = stationaryProbabilityFct(kappa, theta, sigma, v[i])`. -/
def transformedDensity (m : SpecialFunctions K) (kappa theta sigma v : K) : K :=
  let alpha := 1.0 - 2 * kappa * theta / (sigma * sigma)
  m.pow v alpha * stationaryProbabilityFct m kappa theta sigma v

/-- The body of the loop `for (Size i=0; i < vGrid/2; ++i)` of
`testTransformedZeroFlowBC`: the value of `flow` in iteration `i`, from the
arrays `v` and `q`; `none` if an index is outside its array. -/
def zeroFlowBCFlow (kappa sigma : K) (v q : List K) (i : ℕ) : Option K := do
  let hm := (← v[i + 1]?) - (← v[i]?)
  let hp := (← v[i + 2]?) - (← v[i + 1]?)
  let df := stencilDf hm hp (← q[i]?) (← q[i + 1]?) (← q[i + 2]?)
  pure (0.5 * sigma * sigma * (← v[i]?) * df + kappa * (← v[i]?) * (← q[i]?))

/-- The test `testTransformedZeroFlowBC` up to its comparisons: the values of
`flow` for `i = 0, ..., vGrid/2 - 1`. -/
def testTransformedZeroFlowBC (m : SpecialFunctions K) : List (Option K) :=
  let kappa : K := 1.0
  let theta : K := 0.4
  let sigma : K := 2.0
  let vGrid : ℕ := 100
  let v := createStationaryDistributionMesher m kappa theta sigma vGrid
  let p := v.map (stationaryProbabilityFct m kappa theta sigma)
  let alpha := 1.0 - 2 * kappa * theta / (sigma * sigma)
  let q := List.zipWith (fun vi pi => m.pow vi alpha * pi) v p
  (List.range (vGrid / 2)).map (zeroFlowBCFlow kappa sigma v q)

/-- The tolerance `tol` of `testTransformedZeroFlowBC`. -/
def zeroFlowBCTolerance : K := 1e-6

/-- The real functions for which the library functions stand: the real power,
exponential, logarithm and square root; `logValue` and `gamma_p_inv` stay parameters, and
are specified by hypotheses where a theorem needs them. -/
noncomputable def realFunctions (logValue : ℝ → ℝ) (gamma_p_inv : ℝ → ℝ → ℝ) :
    SpecialFunctions ℝ :=
  ⟨fun x y => x ^ y, Real.exp, Real.log, Real.sqrt, logValue, gamma_p_inv⟩

/-- The regularised lower incomplete gamma function that `boost::math::gamma_p`
computes (used by `StationaryDistributionFct`), and of which
`boost::math::gamma_p_inv(a, ·)` is documented to be the inverse. -/
noncomputable def gamma_p (a x : ℝ) : ℝ :=
  (∫ t in Set.Ioc 0 x, t ^ (a - 1) * Real.exp (-t)) / Real.Gamma a

/-- The function object `StationaryDistributionFct(kappa, theta, sigma)`
applied to `v`, the stationary distribution function of the variance:
`boost::math::gamma_p(alpha, beta*v)`, over the reals. -/
noncomputable def StationaryDistributionFct (kappa theta sigma v : ℝ) : ℝ :=
  let alpha := 2 * kappa * theta / (sigma * sigma)
  let beta := alpha / theta
  gamma_p alpha (beta * v)

/-- A right inverse of `gamma_p a` on its range: a point `x` with
`gamma_p a x = q` when there is one. -/
noncomputable def gammaPInverse (a q : ℝ) : ℝ :=
  Classical.epsilon (fun x => gamma_p a x = q)

/-- The remainder of the exponential after its quadratic Taylor polynomial,
divided by the square of the argument: `(1 - t + t^2/2 - exp(-t)) / t^2`. -/
noncomputable def expRemainderQuotient (t : ℝ) : ℝ :=
  (1 - t + t ^ 2 / 2 - Real.exp (-t)) / t ^ 2

end StationaryDistribution

section ForwardEquationTest

/-- The transformations `FdmSquareRootFwdOp::TransformationType` that the
tests name. -/
inductive TransformationType where
  | Plain
  | Power
  | Log
  deriving DecidableEq

/-- The algorithms `FdmHestonGreensFct::Algorithm` that the tests name. -/
inductive GreensAlgorithm where
  | ZeroCorrelation
  | Gaussian
  deriving DecidableEq

/-- The struct `FokkerPlanckFwdTestCase`. -/
structure FokkerPlanckFwdTestCase (K : Type) where
  s0 : K
  r : K
  q : K
  v0 : K
  kappa : K
  theta : K
  rho : K
  sigma : K
  xGrid : ℕ
  vGrid : ℕ
  tGridPerYear : ℕ
  trafoType : TransformationType
  greensAlgorithm : GreensAlgorithm

/-- A critical point `boost::tuple<Real, Real, bool>` of a
`Concentrating1dMesher`: location, density, and whether a node must lie on it. -/
abbrev CriticalPoint (K : Type) : Type := K × K × Bool

/-- The two kinds of statement that fill `cPoints`: `cPoints += t, ts...;`
(the `operator+=` of `boost::assign`, whose result takes the tuples that follow
after commas), and an expression statement `t, ts...;`, which builds its tuples
and drops them. -/
inductive FillStatement (K : Type) where
  | plusAssign (t : CriticalPoint K) (ts : List (CriticalPoint K))
  | expression (t : CriticalPoint K) (ts : List (CriticalPoint K))

/-- The effect of one statement on `cPoints`. -/
def FillStatement.run {K : Type} (cPoints : List (CriticalPoint K)) :
    FillStatement K → List (CriticalPoint K)
  | FillStatement.plusAssign t ts => cPoints ++ t :: ts
  | FillStatement.expression _ _ => cPoints

/-- What the `switch (transformationType)` of
`hestonFokkerPlanckFwdEquationTest` leaves in `lowerBound`, `upperBound` and
`cPoints`. -/
structure VarianceMesherSetup (K : Type) where
  lowerBound : K
  upperBound : K
  cPoints : List (CriticalPoint K)

variable {K : Type} [LinearOrderedField K]

/-- The `switch (transformationType)` of `hestonFokkerPlanckFwdEquationTest`,
statement by statement.  In the case `Log` the statement `cPoints += ...` ends
with a semicolon after its first tuple, and the two tuples of the next lines
form an expression statement; in the cases `Plain` and `Power` the tuples are
joined by commas. -/
def varianceMesherSetup (m : SpecialFunctions K) (testCase : FokkerPlanckFwdTestCase K) :
    VarianceMesherSetup K :=
  let kappa := testCase.kappa
  let theta := testCase.theta
  let sigma := testCase.sigma
  let v0 := testCase.v0
  match testCase.trafoType with
  | TransformationType.Log =>
    let upperBound := m.log (invStationaryDistributionFct m kappa theta sigma 0.9995)
    let lowerBound := m.log 0.00001
    let v0Center := m.log v0
    let v0Density : K := 10.0
    let upperBoundDensity : K := 100
    let lowerBoundDensity : K := 1.0
    ⟨lowerBound, upperBound,
      [FillStatement.plusAssign (lowerBound, lowerBoundDensity, false) [],
       FillStatement.expression (v0Center, v0Density, true)
        [(upperBound, upperBoundDensity, false)]].foldl FillStatement.run []⟩
  | TransformationType.Plain =>
    let upperBound := invStationaryDistributionFct m kappa theta sigma 0.9995
    let lowerBound := invStationaryDistributionFct m kappa theta sigma 1e-5
    let v0Center := v0
    let v0Density : K := 1000.0
    let lowerBoundDensity : K := 1.0
    ⟨lowerBound, upperBound,
      [FillStatement.plusAssign (lowerBound, lowerBoundDensity, false)
        [(v0Center, v0Density, true)]].foldl FillStatement.run []⟩
  | TransformationType.Power =>
    let upperBound := invStationaryDistributionFct m kappa theta sigma 0.999
    let lowerBound : K := 0.0001
    let v0Center := v0
    let v0Density : K := 10.0
    let lowerBoundDensity : K := 1000
    ⟨lowerBound, upperBound,
      [FillStatement.plusAssign (lowerBound, lowerBoundDensity, false)
        [(v0Center, v0Density, true)]].foldl FillStatement.run []⟩

/-- The array `testCases` of `testHestonFokkerPlanckFwdEquation`. -/
def testCases (m : SpecialFunctions K) : List (FokkerPlanckFwdTestCase K) :=
  [ ⟨100.0, 0.01, 0.02, 0.05, 1.0, 0.05, -0.75, m.sqrt 0.2, 201, 4001, 25,
      TransformationType.Power, GreensAlgorithm.Gaussian⟩,
    ⟨100.0, 0.01, 0.02, 0.05, 1.0, 0.05, -0.75, m.sqrt 0.2, 201, 501, 25,
      TransformationType.Log, GreensAlgorithm.Gaussian⟩,
    ⟨100.0, 0.01, 0.02, 0.05, 1.0, 0.05, -0.75, m.sqrt 0.2, 201, 501, 25,
      TransformationType.Log, GreensAlgorithm.ZeroCorrelation⟩,
    ⟨100.0, 0.01, 0.02, 0.05, 1.0, 0.05, -0.75, m.sqrt 0.005, 401, 501, 25,
      TransformationType.Plain, GreensAlgorithm.Gaussian⟩ ]

end ForwardEquationTest

section TransformationChoice

variable {K : Type} [LinearOrderedField K]

/-- The choice of `transform` in `testSquareRootEvolveWithStationaryDensity`:
`(sigma < 0.75) ? FdmSquareRootFwdOp::Plain : FdmSquareRootFwdOp::Power`. -/
def stationaryDensityTransform (sigma : K) : TransformationType :=
  if sigma < 0.75 then TransformationType.Plain else TransformationType.Power

/-- The constants `kappa` and `theta` of
`testSquareRootEvolveWithStationaryDensity`. -/
def stationaryDensityKappa : K := 2.5

/-- See `stationaryDensityKappa`. -/
def stationaryDensityTheta : K := 0.2

/-- The Feller condition `2*kappa*theta >= sigma^2` of the model parameters. -/
def FellerCondition (kappa theta sigma : K) : Prop :=
  2 * kappa * theta ≥ sigma ^ 2

end TransformationChoice

section SigmaSweep

variable {K : Type} [LinearOrderedField K]

/-- The loop `for (Real sigma = 0.2; sigma < 2.01; sigma+=0.1)` of
`testSquareRootEvolveWithStationaryDensity` and of
`testSquareRootLogEvolveWithStationaryDensity`, from the current value of
`sigma`: the values of `sigma` for which the body runs, in order; `none` when
the loop is still running after `fuel` iterations. -/
def sigmaSweepFrom : ℕ → K → Option (List K)
  | 0, sigma => if sigma < 2.01 then none else some []
  | fuel + 1, sigma =>
    if sigma < 2.01 then (sigmaSweepFrom fuel (sigma + 0.1)).map (fun l => sigma :: l)
    else some []

/-- The sweep from its initial value `sigma = 0.2`. -/
def sigmaSweep (fuel : ℕ) : Option (List K) := sigmaSweepFrom fuel 0.2

end SigmaSweep

section LocalVolAccess

/-- What a call of `safeLocalVolAccess` leaves behind: the value returned or
the error raised, and the arguments `(t, spot)` of the calls of
`localVol->localVol` that were made. -/
structure AccessOutcome (K : Type) where
  result : Except String K
  lookups : List (K × K)

/-- The statements of the body of `safeLocalVolAccess`: `return v;`, and
`try { return localVol->localVol(t, spot, true); } catch (Error&)
{ return fallback; }`. -/
inductive AccessStatement (K : Type) where
  | returnValue (v : K)
  | tryLookup (localVol : K → K → Except String K) (t spot fallback : K)

/-- The run of a function body: the first statement returns, and what follows
it is not reached.  A body without statement has no value to return. -/
def AccessStatement.runBody {K : Type} : List (AccessStatement K) → AccessOutcome K
  | [] => ⟨Except.error "no return statement", []⟩
  | AccessStatement.returnValue v :: _ => ⟨Except.ok v, []⟩
  | AccessStatement.tryLookup localVol t spot fallback :: _ =>
    match localVol t spot with
    | Except.ok v => ⟨Except.ok v, [(t, spot)]⟩
    | Except.error _ => ⟨Except.ok fallback, [(t, spot)]⟩

variable {K : Type} [LinearOrderedField K]

/-- The function `safeLocalVolAccess`; `override` has the default `0.2` at the
call sites that leave it out.  `localVol t spot` stands for
`localVol->localVol(t, spot, true)`, which returns a volatility or raises. -/
def safeLocalVolAccess (localVol : K → K → Except String K) (t spot override : K) :
    AccessOutcome K :=
  AccessStatement.runBody
    [AccessStatement.returnValue 0.3,
     AccessStatement.tryLookup localVol t spot override]

end LocalVolAccess

section TimeLoopDensity

variable {K : Type} [LinearOrderedField K]

/-- The density after the first `k` passes of the time loop of
`fokkerPlanckPrice1D`, whose `i`-th pass calls `evolver.step(p, i*dt)`. -/
def evolvedDensity (c : Collaborators K) (dt : K) (p : List K) : ℕ → List K
  | 0 => p
  | k + 1 => c.evolverStep dt (evolvedDensity c dt p k) ((k + 1 : ℕ) * dt)


end TimeLoopDensity

section IkonenToivanen

/-- The two values of `Option::Type`. -/
inductive OptionType where
  | Call
  | Put
  deriving DecidableEq

/-- The exercise classes that the tests construct: `EuropeanExercise` and
`AmericanExercise`. -/
inductive ExerciseStyle where
  | European
  | American
  deriving DecidableEq

/-- A date `Date(day, month, year)`, with the months numbered from 1. -/
structure Date where
  day : ℕ
  month : ℕ
  year : ℕ
  deriving DecidableEq

/-- Modelled from the spec: the class `Date` is not part of the file; the spec
takes its dates from the Gregorian calendar ("28-Mar-2004 → 28-Mar-2005",
"maturity 90 days").  The number of the day in a count of the days of the
Gregorian calendar (for years from 1 on), so that the difference of two values
is the number of days from one date to the other. -/
def Date.dayNumber (d : Date) : ℕ :=
  let y := if d.month ≤ 2 then d.year - 1 else d.year
  let mp := (d.month + 9) % 12
  365 * y + y / 4 - y / 100 + y / 400 + (153 * mp + 2) / 5 + d.day

/-- The number of days from `d1` to `d2`, the value of `d2 - d1`. -/
def Date.daysTo (d1 d2 : Date) : ℤ := (d2.dayNumber : ℤ) - (d1.dayNumber : ℤ)

/-- The option of a test: payoff `PlainVanillaPayoff(type, strike)` and an
exercise of the given class at `exerciseDate`, valued on `evaluationDate`. -/
structure VanillaContract (K : Type) where
  type : OptionType
  strike : K
  exercise : ExerciseStyle
  evaluationDate : Date
  exerciseDate : Date

/-- The arguments of `HestonProcess(rTS, qTS, s0, v0, kappa, theta, sigma, rho)`
with flat curves at the rates `r` and `q`. -/
structure HestonProcessData (K : Type) where
  r : K
  q : K
  s0 : K
  v0 : K
  kappa : K
  theta : K
  sigma : K
  rho : K

/-- One pass of the loop of `testFdmHestonIkonenToivanen`: the option, the
process, the grid sizes `tGrid`, `xGrid` given to `FdHestonVanillaEngine`, the
value `calculated`, the value `expected[i]`, the tolerance, and whether
`BOOST_ERROR` is reached. -/
structure BenchmarkPass (K : Type) where
  contract : VanillaContract K
  process : HestonProcessData K
  tGrid : ℕ
  xGrid : ℕ
  calculated : K
  expected : K
  tol : K
  errorReported : Bool

variable {K : Type} [LinearOrderedField K]

/-- The test `testFdmHestonIkonenToivanen`; `npv contract process tGrid xGrid`
stands for `option.NPV()` under the engine
`FdHestonVanillaEngine(model, tGrid, xGrid)`.  The option is built once, before
the loop, with the payoff `PlainVanillaPayoff(Option::Put, 10)`; the loop puts
`strikes[i]` into the quote `s0` of the process. -/
def testFdmHestonIkonenToivanen
    (npv : VanillaContract K → HestonProcessData K → ℕ → ℕ → K) : List (BenchmarkPass K) :=
  let r : K := 0.10
  let q : K := 0.0
  let contract : VanillaContract K :=
    ⟨OptionType.Put, 10, ExerciseStyle.American, ⟨28, 3, 2004⟩, ⟨26, 6, 2004⟩⟩
  let strikes : List K := [8, 9, 10, 11, 12]
  let expected : List K := [2.00000, 1.10763, 0.520038, 0.213681, 0.082046]
  let tol : K := 0.001
  List.zipWith
    (fun strikes_i expected_i =>
      let process : HestonProcessData K := ⟨r, q, strikes_i, 0.0625, 5, 0.16, 0.9, 0.1⟩
      let calculated := npv contract process 100 400
      ⟨contract, process, 100, 400, calculated, expected_i, tol,
        decide (|calculated - expected_i| > tol)⟩)
    strikes expected

end IkonenToivanen

section DegenerateGrid

variable {K : Type} [LinearOrderedField K]

/-- The comparison that `close_enough(x, y)` of `ql/math/comparison.hpp` makes
with its default of 42 machine epsilons (the header is not part of the file;
in `fokkerPlanckPrice1D` the comparison is a parameter): equal values are
close; if one value is zero, the difference is compared with the square of the
tolerance; otherwise the difference is at most `42*epsilon` times the absolute
value of `x` or of `y`. -/
def relativeCloseEnough (epsilon x y : K) : Bool :=
  if x = y then true
  else if x * y = 0 then decide (|x - y| < 42 * epsilon * (42 * epsilon))
  else decide (|x - y| ≤ 42 * epsilon * |x|) || decide (|x - y| ≤ 42 * epsilon * |y|)

/-- A strictly increasing grid of five values of the type `double` whose last
two nodes are two units in the last place apart. -/
def degenerateGrid : List K := [0, 1, 2, 3, 3 + 1 / 2 ^ 50]

end DegenerateGrid

section DensityMass

variable {K : Type} [LinearOrderedField K]

/-- The mass of a density `p` on the grid `x` over the interior nodes:
the sum of `p[i]*(x[i+1]-x[i-1])/2` for `i = 1, ..., n-2`. -/
def interiorMass (x p : List K) : K :=
  ∑ i in Finset.Ico 1 (x.length - 1),
    p.getD i 0 * ((x.getD (i + 1) 0 - x.getD (i - 1) 0) / 2)


end DensityMass

section ZeroFlowDerivatives

variable {K : Type} [Field K]

/-- The local `flowSym2Order` of `testSquareRootZeroFlowBC`, as a function of
the parameters, of the point `v0`, of the step `h` and of the values `pm1`,
`p0`, `p1` of the density at `v0 - h`, `v0`, `v0 + h`. -/
def flowSym2Order (kappa theta sigma v0 h pm1 p0 p1 : K) : K :=
  sigma * sigma * v0 / (4 * h) * (p1 - pm1)
    + (kappa * (v0 - theta) + sigma * sigma / 2) * p0

/-- The local `flowSym4Order` of `testSquareRootZeroFlowBC`; `pm2` and `p2` are
the values of the density at `v0 - 2*h` and `v0 + 2*h`. -/
def flowSym4Order (kappa theta sigma v0 h pm2 pm1 p0 p1 p2 : K) : K :=
  sigma * sigma * v0 / (24 * h) * (-p2 + 8 * p1 - 8 * pm1 + pm2)
    + (kappa * (v0 - theta) + sigma * sigma / 2) * p0

/-- The local `fwd1Order` of `testSquareRootZeroFlowBC`. -/
def fwd1Order (kappa theta sigma v0 h p0 p1 : K) : K :=
  sigma * sigma * v0 / (2 * h) * (p1 - p0)
    + (kappa * (v0 - theta) + sigma * sigma / 2) * p0

/-- The local `fwd2Order` of `testSquareRootZeroFlowBC`. -/
def fwd2Order (kappa theta sigma v0 h p0 p1 p2 : K) : K :=
  sigma * sigma * v0 / (4 * h) * (4 * p1 - 3 * p0 - p2)
    + (kappa * (v0 - theta) + sigma * sigma / 2) * p0

/-- The local `fwd3Order` of `testSquareRootZeroFlowBC`. -/
def fwd3Order (kappa theta sigma v0 h pm1 p0 p1 p2 : K) : K :=
  sigma * sigma * v0 / (12 * h) * (-p2 + 6 * p1 - 3 * p0 - 2 * pm1)
    + (kappa * (v0 - theta) + sigma * sigma / 2) * p0

/-- The probability flux that these expressions approximate, from the value
`p` and the derivative `dp` of the density at `v`:
`0.5*sigma^2*v*p'(v) + (kappa*(v-theta) + sigma^2/2)*p(v)`. -/
def exactFlux (kappa theta sigma v p dp : K) : K :=
  0.5 * sigma ^ 2 * v * dp + (kappa * (v - theta) + sigma ^ 2 / 2) * p

end ZeroFlowDerivatives

section BarrierVsBlackScholes

variable {K : Type} [LinearOrderedField K]

/-- The guard of `BOOST_ERROR` in `testFdmHestonBarrierVsBlackScholes`, with
`tol = 0.002`: `std::fabs(calculatedHE - expected)/expected > tol`.  The value
`true` means that the failure is reported. -/
def barrierErrorReported (calculatedHE expected : K) : Bool :=
  let tol : K := 0.002
  decide (|calculatedHE - expected| / expected > tol)

end BarrierVsBlackScholes

section LeverageTestEvolve

variable {K : Type} [LinearOrderedField K] {P : Type}

/-- The loop `for (Size i=0; i < tGrid; ++i, t+=dt) evolver.step(p, t);` of
`testHestonFokkerPlanckFwdEquationLogLVLeverage`, run for `n` remaining
iterations from the state `(t, p)`.  It returns the final `t`, the final `p`
and the times handed to `evolver.step`, in order. -/
def evolveLoop (step : K → P → K → P) (dt : K) : ℕ → K → P → K × P × List K
  | 0, t, p => (t, p, [])
  | n + 1, t, p =>
    let r := evolveLoop step dt n (t + dt) (step dt p t)
    (r.1, r.2.1, t :: r.2.2)

/-- The evolution of `testHestonFokkerPlanckFwdEquationLogLVLeverage`:
`const Time dt = (maturity-eT)/tGrid;`, then `Time t=dt;
evolver.setStep(dt);` and the loop.  `p` is the density at the time `eT`. -/
def leverageTestEvolve (step : K → P → K → P) (maturity eT : K) (tGrid : ℕ) (p : P) :
    K × P × List K :=
  let dt := (maturity - eT) / (tGrid : K)
  evolveLoop step dt tGrid dt p

end LeverageTestEvolve

section EuropeanWithDividends

/-- The set-up of `testFdmHestonEuropeanWithDividends`: the message with
which the test is announced, the option with its dividends, the process, the
grid sizes given to `FdHestonVanillaEngine`, and the expected values with
their tolerances. -/
structure DividendTestSetup (K : Type) where
  message : String
  contract : VanillaContract K
  dividends : List K
  dividendDates : List Date
  process : HestonProcessData K
  tGrid : ℕ
  xGrid : ℕ
  vGrid : ℕ
  tol : K
  gammaTol : K
  npvExpected : K
  deltaExpected : K
  gammaExpected : K

variable {K : Type} [LinearOrderedField K]

/-- The set-up of `testFdmHestonEuropeanWithDividends`: the exercise is
`new AmericanExercise(exerciseDate)`. -/
def testFdmHestonEuropeanWithDividends : DividendTestSetup K :=
  { message := "Testing FDM with European option with dividends in Heston model..."
    contract := ⟨OptionType.Put, 100, ExerciseStyle.American, ⟨28, 3, 2004⟩, ⟨28, 3, 2005⟩⟩
    dividends := [5]
    dividendDates := [⟨28, 9, 2004⟩]
    process := ⟨0.05, 0.0, 100.0, 0.04, 2.5, 0.04, 0.66, -0.8⟩
    tGrid := 50
    xGrid := 100
    vGrid := 50
    tol := 0.01
    gammaTol := 0.001
    npvExpected := 7.365075
    deltaExpected := -0.396678
    gammaExpected := 0.027681 }

end EuropeanWithDividends

section LeverageFromVolSurface

/-- A QuantLib `Matrix`: its numbers of rows and of columns, and its entries. -/
structure QlMatrix (K : Type) where
  rows : ℕ
  columns : ℕ
  entry : ℕ → ℕ → K

/-- The assignment `surface[i][j] = v`; outside the matrix it is undefined. -/
def QlMatrix.write {K : Type} (m : QlMatrix K) (i j : ℕ) (v : K) :
    Except Failure (QlMatrix K) :=
  if i < m.rows ∧ j < m.columns then
    Except.ok ⟨m.rows, m.columns, fun a b => if a = i ∧ b = j then v else m.entry a b⟩
  else Except.error Failure.outOfRange

/-- What `createLeverageFctFromVolSurface` leaves behind: the vector `times`,
the matrix `surface`, and the spline that it returns. -/
structure LeverageFct (K : Type) (S : Type) where
  times : List K
  surface : QlMatrix K
  leverage : S

variable {K : Type} [LinearOrderedField K] {D : Type} {S : Type}

/-- The statement
`try { surface[i][j] = localVol->localVol(dates[j], strikes[i], true); }
catch (Error&) { surface[i][j] = 0.2; }`;
`localVol date strike` returns the local volatility or raises an `Error`. -/
def surfaceEntry (localVol : D → K → Except String K) (date : D) (strike : K) : K :=
  match localVol date strike with
  | Except.ok v => v
  | Except.error _ => 0.2

/-- The loop `for (Size j=0; j < dates.size(); ++j)` for the row `i` with
strike `strikes[i]`, from the column `j` on, over the dates that remain. -/
def fillSurfaceRow (localVol : D → K → Except String K) (strike : K) (i : ℕ) :
    List D → ℕ → QlMatrix K → Except Failure (QlMatrix K)
  | [], _, m => Except.ok m
  | date :: rest, j, m =>
    match m.write i j (surfaceEntry localVol date strike) with
    | Except.ok m' => fillSurfaceRow localVol strike i rest (j + 1) m'
    | Except.error e => Except.error e

/-- The loop `for (Size i=0; i < strikes.size(); ++i)`, from the row `i` on,
over the strikes that remain. -/
def fillSurface (localVol : D → K → Except String K) (dates : List D) :
    List K → ℕ → QlMatrix K → Except Failure (QlMatrix K)
  | [], _, m => Except.ok m
  | strike :: rest, i, m =>
    match fillSurfaceRow localVol strike i dates 0 m with
    | Except.ok m' => fillSurface localVol dates rest (i + 1) m'
    | Except.error e => Except.error e

/-- The function `createLeverageFctFromVolSurface`.  `localVol` is the local
volatility surface of `lvProcess`, `yearFraction date` stands for
`dc.yearFraction(todaysDate, date)` with `todaysDate` the evaluation date, and
`bicubicSpline times strikes surface` for the `BicubicSpline` that is built
and returned with its extrapolation disabled.  The loop
`for (Size i=0; i < times.size(); ++i) times[i] = dc.yearFraction(todaysDate,
dates[i]);` runs after the requirement, on vectors of equal size. -/
def createLeverageFctFromVolSurface (localVol : D → K → Except String K)
    (yearFraction : D → K) (bicubicSpline : List K → List K → QlMatrix K → S)
    (strikes : List K) (dates : List D) (times : List K) (surface : QlMatrix K) :
    Except Failure (LeverageFct K S) :=
  if times.length = dates.length then
    let times' := List.zipWith (fun _ date => yearFraction date) times dates
    match fillSurface localVol dates strikes 0 surface with
    | Except.ok surface' =>
      Except.ok ⟨times', surface', bicubicSpline times' strikes surface'⟩
    | Except.error e => Except.error e
  else Except.error (Failure.required "mismatch")

end LeverageFromVolSurface

/-! ## Theorems -/

section ConvergenceTheorems

variable {K : Type} [LinearOrderedField K]

/-- C1 (as amended): for a reference price `expected ≠ 0`, where the quotient
`|expected - calculated|/expected` of the model is the quotient of the code
(its product with `expected` is `|expected - calculated|`), the convergence
check of `testFdmHestonConvergence` reports no error exactly when the absolute
error is at most `0.002` or the relative error
`|expected - calculated|/expected` is at most `0.02`, and reports an error
otherwise. -/
theorem convergence_accepts_iff (expected calculated : K) (hexpected : expected ≠ 0) :
    |expected - calculated| / expected * expected = |expected - calculated| ∧
    (convergenceErrorReported expected calculated = false ↔
      (|expected - calculated| ≤ 0.002 ∨
        |expected - calculated| / expected ≤ 0.02)) ∧
    (convergenceErrorReported expected calculated = true ↔
      ¬ (|expected - calculated| ≤ 0.002 ∨
        |expected - calculated| / expected ≤ 0.02)) := by
  have h : convergenceErrorReported expected calculated = false ↔
      (|expected - calculated| ≤ 0.002 ∨
        |expected - calculated| / expected ≤ 0.02) := by
    unfold convergenceErrorReported
    rw [Bool.and_eq_false_iff, decide_eq_false_iff_not, decide_eq_false_iff_not,
      not_lt, not_lt]
    exact Or.comm
  refine ⟨div_mul_cancel₀ _ hexpected, h, ?_⟩
  rw [← h]
  simp

/-- C1 (witness): `expected = 10` and `calculated = 10.1`: the absolute error
`0.1` exceeds `0.002`, the relative error `0.01` does not exceed `0.02`, and
no error is reported. -/
theorem convergence_accepts_iff_witness :
    (10 : ℚ) ≠ 0 ∧ convergenceErrorReported (10 : ℚ) (101 / 10) = false :=
  ⟨by norm_num,
    (convergence_accepts_iff (10 : ℚ) (101 / 10) (by norm_num)).2.1.mpr
      (Or.inr (by norm_num [abs_of_neg]))⟩

/-- C1 (counterexample): with `expected = 0.1 ≠ 0` and `calculated = 0.11` the
absolute error `0.01` is at most `0.02`, and yet the check reports an error. -/
theorem convergence_abs_tolerance_counterexample :
    (1 / 10 : ℚ) ≠ 0 ∧ |(1 / 10 : ℚ) - 11 / 100| ≤ 0.02 ∧
      convergenceErrorReported (1 / 10 : ℚ) (11 / 100) = true := by
  refine ⟨by norm_num, by norm_num [abs_le], ?_⟩
  unfold convergenceErrorReported
  rw [Bool.and_eq_true, decide_eq_true_iff, decide_eq_true_iff]
  norm_num [abs_of_neg]

end ConvergenceTheorems

section StencilTheorems

variable {K : Type} [LinearOrderedField K]

/-- C5: the one-sided three-point stencil of `testTransformedZeroFlowBC`
reproduces the first derivative of every polynomial of degree at most two
exactly, for all positive spacings `hm`, `hp` and every point `x`. -/
theorem stencil_exact_on_quadratics (hm hp : K) (hhm : 0 < hm) (hhp : 0 < hp)
    (f : Polynomial K) (hf : f.natDegree ≤ 2) (x : K) :
    stencilDf hm hp (f.eval x) (f.eval (x + hm)) (f.eval (x + hm + hp)) =
      f.derivative.eval x := by
  have hsum : f = ∑ i in Finset.range 3, Polynomial.monomial i (f.coeff i) :=
    Polynomial.as_sum_range' f 3 (by omega)
  have h1 : hm ≠ 0 := hhm.ne'
  have h2 : hp ≠ 0 := hhp.ne'
  have h3 : hm + hp ≠ 0 := (add_pos hhm hhp).ne'
  rw [hsum]
  simp only [Finset.sum_range_succ, Finset.sum_range_zero, zero_add,
    Polynomial.eval_add, Polynomial.eval_monomial, Polynomial.derivative_add,
    Polynomial.derivative_monomial, stencilDf, stencilA, stencilB, stencilC,
    stencilEta]
  field_simp
  ring

/-- C5 (witness): the stencil on the spacings `hm = 1`, `hp = 2` applied to
`X^2` at `x = 3`. -/
theorem stencil_exact_on_quadratics_witness :
    (0 : ℚ) < 1 ∧ (0 : ℚ) < 2 ∧ (Polynomial.X ^ 2 : Polynomial ℚ).natDegree ≤ 2 ∧
      stencilDf (1 : ℚ) 2 ((Polynomial.X ^ 2 : Polynomial ℚ).eval 3)
          ((Polynomial.X ^ 2 : Polynomial ℚ).eval (3 + 1))
          ((Polynomial.X ^ 2 : Polynomial ℚ).eval (3 + 1 + 2)) =
        (Polynomial.derivative (Polynomial.X ^ 2 : Polynomial ℚ)).eval 3 :=
  ⟨by norm_num, by norm_num, by simp,
    stencil_exact_on_quadratics 1 2 (by norm_num) (by norm_num) _ (by simp) 3⟩

end StencilTheorems

section SliceOffsetTheorems

theorem sliceOffset_lt (xGrid vGrid j k : ℕ) (hj : j < xGrid) (hk : k < vGrid) :
    sliceOffset xGrid j k < xGrid * vGrid := by
  unfold sliceOffset
  calc j + k * xGrid < xGrid + k * xGrid := by omega
    _ = xGrid * (k + 1) := by ring
    _ ≤ xGrid * vGrid := Nat.mul_le_mul_left _ hk

/-- When the size `xGrid*vGrid` of the density array fits the type `Size`, the
machine computes the offset without wrapping. -/
theorem sliceOffsetSize_eq (xGrid vGrid j k : ℕ) (hsz : xGrid * vGrid < 2 ^ 64)
    (hj : j < xGrid) (hk : k < vGrid) :
    sliceOffsetSize xGrid j k = sliceOffset xGrid j k := by
  have h1 := sliceOffset_lt xGrid vGrid j k hj hk
  unfold sliceOffset at h1
  have h2 : k * xGrid < 2 ^ 64 := by omega
  unfold sliceOffsetSize sliceOffset
  rw [Nat.mod_eq_of_lt h2, Nat.mod_eq_of_lt (by omega)]

/-- C8: the slicing offset `(j, k) ↦ j + k*xGrid` of `testLSVCalibration` is a
bijection from `[0, xGrid) × [0, vGrid)` onto `[0, xGrid*vGrid)`, for all grid
sizes (in particular for `xGrid, vGrid ≥ 1`): every read is inside an array of
size `xGrid*vGrid` and distinct coordinate pairs read distinct entries. -/
theorem sliceOffset_bijOn (xGrid vGrid : ℕ) :
    Set.BijOn (fun jk : ℕ × ℕ => sliceOffset xGrid jk.1 jk.2)
        (Set.Iio xGrid ×ˢ Set.Iio vGrid) (Set.Iio (xGrid * vGrid)) := by
  refine ⟨?_, ?_, ?_⟩
  · rintro ⟨j, k⟩ ⟨hj, hk⟩
    exact sliceOffset_lt xGrid vGrid j k hj hk
  · rintro ⟨j, k⟩ ⟨hj, hk⟩ ⟨j', k'⟩ ⟨hj', hk'⟩ h
    simp only [Set.mem_Iio] at hj hk hj' hk'
    simp only [sliceOffset] at h
    have hx : 0 < xGrid := by omega
    have hk1 : (j + k * xGrid) / xGrid = k := by
      rw [Nat.add_mul_div_right _ _ hx, Nat.div_eq_of_lt hj, zero_add]
    have hk2 : (j' + k' * xGrid) / xGrid = k' := by
      rw [Nat.add_mul_div_right _ _ hx, Nat.div_eq_of_lt hj', zero_add]
    have hkk : k = k' := by rw [← hk1, ← hk2, h]
    subst hkk
    have hjj : j = j' := by omega
    rw [hjj]
  · intro n hn
    simp only [Set.mem_Iio] at hn
    have hx : 0 < xGrid := by
      rcases Nat.eq_zero_or_pos xGrid with h0 | h0
      · rw [h0, Nat.zero_mul] at hn; omega
      · exact h0
    refine ⟨(n % xGrid, n / xGrid), ⟨Nat.mod_lt _ hx, ?_⟩, ?_⟩
    · exact Nat.div_lt_of_lt_mul hn
    · simp only [sliceOffset]
      rw [Nat.mul_comm]
      exact Nat.mod_add_div n xGrid

end SliceOffsetTheorems

section MaturityLoopTheorems

variable {K : Type} [LinearOrderedField K] {P : Type}

theorem stepLoop_time (step : K → P → K → P) (dt : K) (n : ℕ) (t : K) (p : P) :
    (stepLoop step dt n t p).1 = t + n * dt := by
  induction n generalizing t p with
  | zero => simp [stepLoop]
  | succ n ih =>
    simp only [stepLoop, ih]
    push_cast
    ring

theorem stepLoop_targets (step : K → P → K → P) (dt : K) (n : ℕ) (t : K) (p : P) :
    (stepLoop step dt n t p).2.2 =
      (List.range n).map (fun (i : ℕ) => t + ((i : K) + 1) * dt) := by
  induction n generalizing t p with
  | zero => simp [stepLoop]
  | succ n ih =>
    simp only [stepLoop, ih, List.range_succ_eq_map, List.map_cons, List.map_map]
    refine congrArg₂ _ (by simp) (List.map_congr_left ?_)
    intro i _
    simp only [Function.comp, Nat.cast_succ]
    ring

theorem stepLoop_density (step : K → P → K → P) (dt : K) (n : ℕ) (t : K) (p : P) :
    (stepLoop step dt n t p).2.1
      = List.foldl (step dt) p (stepLoop step dt n t p).2.2 := by
  induction n generalizing t p with
  | zero => simp [stepLoop]
  | succ n ih =>
    simp only [stepLoop, List.foldl_cons]
    exact ih (t + dt) (step dt p (t + dt))

theorem maturityLoop_density (step : K → P → K → P) (tGridPerYear : ℕ) (t : K) (p : P)
    (maturities : List K) :
    (maturityLoop step tGridPerYear t p maturities).map MaturityPass.density
      = List.zipWith (fun r q => List.foldl (step r.dt) q r.targets)
          (maturityLoop step tGridPerYear t p maturities)
          (p :: (maturityLoop step tGridPerYear t p maturities).map
            MaturityPass.density) := by
  induction maturities generalizing t p with
  | nil => simp [maturityLoop]
  | cons T rest ih =>
    simp only [maturityLoop, List.map_cons, List.zipWith_cons_cons]
    refine congrArg₂ _ (stepLoop_density step _ tGridPerYear t p) ?_
    exact ih _ _

theorem maturityLoop_passes (step : K → P → K → P)
    (tGridPerYear : ℕ) (hn : 1 ≤ tGridPerYear) (eT : K) (p : P)
    (maturities : List K) (hsorted : List.Chain (· < ·) eT maturities) :
    (maturityLoop step tGridPerYear eT p maturities).map MaturityPass.tEnd
        = maturities ∧
      (maturityLoop step tGridPerYear eT p maturities).map MaturityPass.tStart
        = (eT :: maturities).dropLast ∧
      ∀ r ∈ maturityLoop step tGridPerYear eT p maturities,
        r.dt = (r.tEnd - r.tStart) / (tGridPerYear : K) ∧ 0 < r.dt ∧
        r.targets.length = tGridPerYear ∧
        r.targets =
          (List.range tGridPerYear).map
            (fun (i : ℕ) => r.tStart + ((i : K) + 1) * r.dt) := by
  have hnK : (0 : K) < tGridPerYear := by exact_mod_cast hn
  induction maturities generalizing eT p with
  | nil => simp [maturityLoop]
  | cons T rest ih =>
    rw [List.chain_cons] at hsorted
    obtain ⟨hlt, hrest⟩ := hsorted
    have hend : (stepLoop step ((T - eT) / (tGridPerYear : K)) tGridPerYear eT p).1 = T := by
      rw [stepLoop_time]
      field_simp
    simp only [maturityLoop]
    rw [hend]
    obtain ⟨ih1, ih2, ih3⟩ := ih T
      (stepLoop step ((T - eT) / (tGridPerYear : K)) tGridPerYear eT p).2.1 hrest
    refine ⟨?_, ?_, ?_⟩
    · simp only [List.map_cons, ih1]
    · simp only [List.map_cons, ih2]
      rfl
    · intro r hr
      rcases List.mem_cons.mp hr with h | h
      · subst h
        refine ⟨rfl, div_pos (sub_pos.mpr hlt) hnK, ?_, ?_⟩
        · simp [stepLoop_targets]
        · exact stepLoop_targets _ _ _ _ _
      · exact ih3 r h

/-- C10: in the maturity loop of `hestonFokkerPlanckFwdEquationTest`, for
`tGridPerYear ≥ 1` and maturity times `eT < T_1 < ... < T_m`, there is one
pass per maturity; pass `k` starts at the previous maturity (at `eT` for the
first), uses `dt = (T_k - tStart)/tGridPerYear > 0`, makes exactly
`tGridPerYear` calls of `evolver.step` with the target times
`tStart + (i+1)*dt`, the last of which is `T_k`, and leaves `t = T_k`; the
density priced after pass `k` is the density priced after pass `k-1` (the
initial density for the first pass) carried through these calls of
`evolver.step` in order. -/
theorem maturityLoop_reaches_maturities (step : K → P → K → P)
    (tGridPerYear : ℕ) (hn : 1 ≤ tGridPerYear) (eT : K) (p : P)
    (maturities : List K) (hsorted : List.Chain (· < ·) eT maturities) :
    (maturityLoop step tGridPerYear eT p maturities).map MaturityPass.tEnd
        = maturities ∧
      (maturityLoop step tGridPerYear eT p maturities).map MaturityPass.tStart
        = (eT :: maturities).dropLast ∧
      (∀ r ∈ maturityLoop step tGridPerYear eT p maturities,
        r.dt = (r.tEnd - r.tStart) / (tGridPerYear : K) ∧ 0 < r.dt ∧
        r.targets.length = tGridPerYear ∧
        r.targets =
          (List.range tGridPerYear).map
            (fun (i : ℕ) => r.tStart + ((i : K) + 1) * r.dt) ∧
        r.targets.getLast? = some r.tEnd) ∧
      (maturityLoop step tGridPerYear eT p maturities).map MaturityPass.density
        = List.zipWith (fun r q => List.foldl (step r.dt) q r.targets)
            (maturityLoop step tGridPerYear eT p maturities)
            (p :: (maturityLoop step tGridPerYear eT p maturities).map
              MaturityPass.density) := by
  have hnK : (tGridPerYear : K) ≠ 0 := by
    have : (0 : K) < tGridPerYear := by exact_mod_cast hn
    exact this.ne'
  obtain ⟨h1, h2, h3⟩ :=
    maturityLoop_passes step tGridPerYear hn eT p maturities hsorted
  refine ⟨h1, h2, ?_, maturityLoop_density step tGridPerYear eT p maturities⟩
  intro r hr
  obtain ⟨hdt, hpos, hlen, htargets⟩ := h3 r hr
  refine ⟨hdt, hpos, hlen, htargets, ?_⟩
  obtain ⟨n, rfl⟩ : ∃ n, tGridPerYear = n + 1 := ⟨tGridPerYear - 1, by omega⟩
  have hlast : r.tStart + ((n : K) + 1) * r.dt = r.tEnd := by
    rw [hdt]
    push_cast at hnK ⊢
    field_simp
  rw [htargets, List.range_succ, List.map_append, List.map_singleton,
    List.getLast?_append, List.getLast?_singleton, hlast]
  rfl

/-- C10 (witness): two maturities `1/2 < 1` after `eT = 1/4`, two steps per
maturity, on `ℚ`, with a density that records the target times of the calls
of `evolver.step`: the passes end at `1/2` and `1`, and the densities priced
there have been stepped to `3/8, 1/2` and to `3/8, 1/2, 3/4, 1`. -/
theorem maturityLoop_reaches_maturities_witness :
    List.Chain (· < ·) (1 / 4 : ℚ) [1 / 2, 1] ∧
    (maturityLoop (fun (_ : ℚ) (d : List ℚ) (s : ℚ) => d ++ [s]) 2 (1 / 4) []
        [1 / 2, 1]).map MaturityPass.tEnd = [1 / 2, 1] ∧
    (maturityLoop (fun (_ : ℚ) (d : List ℚ) (s : ℚ) => d ++ [s]) 2 (1 / 4) []
        [1 / 2, 1]).map MaturityPass.density
      = [[3 / 8, 1 / 2], [3 / 8, 1 / 2, 3 / 4, 1]] := by
  have hchain : List.Chain (· < ·) (1 / 4 : ℚ) [1 / 2, 1] := by
    simp only [List.chain_cons]
    norm_num
  have h := maturityLoop_reaches_maturities
    (fun (_ : ℚ) (d : List ℚ) (s : ℚ) => d ++ [s]) 2 (by decide) (1 / 4) []
    [1 / 2, 1] hchain
  refine ⟨hchain, h.1, ?_⟩
  simp only [maturityLoop, stepLoop, List.map_cons, List.map_nil, List.nil_append,
    List.cons_append]
  norm_num

end MaturityLoopTheorems

section ExecLemmas

variable {K : Type}

theorem notRequired_pure {α : Type} (a : α) : NotRequired (pure a : Exec K α) := by
  intro msg h; cases h

theorem notRequired_log (e : Event K) : NotRequired (Exec.log e) := by
  intro msg h; cases h

theorem notRequired_outOfRange {α : Type} :
    NotRequired (Exec.fail Failure.outOfRange : Exec K α) := by
  intro msg h; cases h

theorem notRequired_outOfFuel {α : Type} :
    NotRequired (Exec.fail Failure.outOfFuel : Exec K α) := by
  intro msg h; cases h

theorem notRequired_bind {α β : Type} (m : Exec K α) (f : α → Exec K β)
    (hm : NotRequired m) (hf : ∀ a, NotRequired (f a)) : NotRequired (m >>= f) := by
  intro msg
  show (Exec.bind m f).result ≠ _
  unfold Exec.bind
  rcases hmv : m.result with e | a
  · simp only
    intro h
    cases h
    exact hm msg hmv
  · simp only
    exact hf a msg

theorem notRequired_readGrid (x : List K) (i : ℤ) : NotRequired (readGrid x i) := by
  unfold readGrid
  refine notRequired_bind _ _ (notRequired_log _) (fun _ => ?_)
  split
  · split
    · exact notRequired_pure _
    · exact notRequired_outOfRange
  · exact notRequired_outOfRange

theorem notRequired_writeDensity (p : List K) (i : ℤ) (v : K) :
    NotRequired (writeDensity p i v) := by
  unfold writeDensity
  refine notRequired_bind _ _ (notRequired_log _) (fun _ => ?_)
  split
  · exact notRequired_pure _
  · exact notRequired_outOfRange

theorem readGrid_of_get (x : List K) (i : ℕ) (v : K) (h : x[i]? = some v) :
    readGrid x (i : ℤ) = ⟨[Event.read (i : ℤ)], Except.ok v⟩ := by
  unfold readGrid
  simp only [Int.natCast_nonneg, if_true, Int.toNat_ofNat, h]
  rfl

theorem bind_ok {α β : Type} (tr : List (Event K)) (a : α) (f : α → Exec K β) :
    (⟨tr, Except.ok a⟩ : Exec K α) >>= f = ⟨tr ++ (f a).trace, (f a).result⟩ := rfl

theorem log_bind {α : Type} (e : Event K) (m : Exec K α) :
    (Exec.log e >>= fun _ => m) = ⟨e :: m.trace, m.result⟩ := rfl

theorem readGrid_of_int (x : List K) (z : ℤ) (i : ℕ) (v : K) (hz : z = (i : ℤ))
    (h : x[i]? = some v) : readGrid x z = ⟨[Event.read z], Except.ok v⟩ := by
  subst hz
  exact readGrid_of_get x i v h

theorem writeDensity_of_int (p : List K) (z : ℤ) (i : ℕ) (v : K) (hz : z = (i : ℤ))
    (h : i < p.length) : writeDensity p z v = ⟨[Event.write z], Except.ok (p.set i v)⟩ := by
  subst hz
  unfold writeDensity
  have : (0 : ℤ) ≤ (i : ℤ) ∧ ((i : ℤ).toNat < p.length) := ⟨Int.natCast_nonneg i, by simpa using h⟩
  rw [if_pos this]
  rfl

end ExecLemmas

section FokkerPlanck1DTheorems

variable {K : Type} [LinearOrderedField K]

theorem notRequired_seedDensity (closeEnough : K → K → Bool) (x : List K) (x0 : K) :
    NotRequired (seedDensity closeEnough x x0) := by
  unfold seedDensity
  refine notRequired_bind _ _ (notRequired_readGrid _ _) (fun ub => ?_)
  split
  · refine notRequired_bind _ _ (notRequired_readGrid _ _) (fun _ => ?_)
    refine notRequired_bind _ _ (notRequired_readGrid _ _) (fun _ => ?_)
    exact notRequired_writeDensity _ _ _
  · refine notRequired_bind _ _ (notRequired_readGrid _ _) (fun lb => ?_)
    split
    · refine notRequired_bind _ _ (notRequired_readGrid _ _) (fun _ => ?_)
      refine notRequired_bind _ _ (notRequired_readGrid _ _) (fun _ => ?_)
      exact notRequired_writeDensity _ _ _
    · refine notRequired_bind _ _ (notRequired_readGrid _ _) (fun _ => ?_)
      refine notRequired_bind _ _ (notRequired_readGrid _ _) (fun _ => ?_)
      refine notRequired_bind _ _ (notRequired_readGrid _ _) (fun _ => ?_)
      refine notRequired_bind _ _ (notRequired_readGrid _ _) (fun _ => ?_)
      refine notRequired_bind _ _ (notRequired_writeDensity _ _ _) (fun _ => ?_)
      exact notRequired_writeDensity _ _ _

theorem notRequired_timeLoop (c : Collaborators K) (dt bound : K) (fuel : ℕ) (t : K)
    (p : List K) : NotRequired (timeLoop c dt bound fuel t p) := by
  induction fuel generalizing t p with
  | zero =>
    unfold timeLoop
    split
    · exact notRequired_outOfFuel
    · exact notRequired_pure _
  | succ n ih =>
    unfold timeLoop
    split
    · exact notRequired_bind _ _ (notRequired_log _) (fun _ => ih _ _)
    · exact notRequired_pure _

/-- The part of `fokkerPlanckPrice1D` after the `QL_REQUIRE`. -/
theorem notRequired_afterRequire (c : Collaborators K) (x : List K) (x0 maturity : K)
    (tGrid fuel : ℕ) :
    NotRequired (do
      let p ← seedDensity c.closeEnough x x0
      let dt := maturity / (tGrid : K)
      let p ← timeLoop c dt (maturity + 20 * c.epsilon) fuel dt p
      let payoffTimesDensity := List.zipWith (fun xi pi => c.payoffOfExp xi * pi) x p
      Exec.log Event.integrate
      pure (c.integrate x payoffTimesDensity) : Exec K K) := by
  refine notRequired_bind _ _ (notRequired_seedDensity _ _ _) (fun _ => ?_)
  refine notRequired_bind _ _ (notRequired_timeLoop _ _ _ _ _ _) (fun _ => ?_)
  exact notRequired_bind _ _ (notRequired_log _) (fun _ => notRequired_pure _)

theorem sufficientMesher_of_short (x : List K) (x0 : K) (h : ¬ 3 < x.length) :
    sufficientMesher x x0 = ⟨[], Except.ok false⟩ := by
  unfold sufficientMesher
  rw [if_neg h]
  rfl

theorem sufficientMesher_of_long (x : List K) (x0 x1 xn : K) (h : 3 < x.length)
    (hx1 : x[1]? = some x1) (hxn : x[x.length - 2]? = some xn) :
    sufficientMesher x x0 =
      if x1 ≤ x0 then
        ⟨[Event.read 1, Event.read ((x.length : ℤ) - 2)], Except.ok (decide (xn ≥ x0))⟩
      else ⟨[Event.read 1], Except.ok false⟩ := by
  have hr1 : readGrid x 1 = ⟨[Event.read 1], Except.ok x1⟩ :=
    readGrid_of_get x 1 x1 hx1
  have hcast : ((x.length : ℤ) - 2) = ((x.length - 2 : ℕ) : ℤ) := by omega
  have hrn : readGrid x ((x.length : ℤ) - 2)
      = ⟨[Event.read ((x.length : ℤ) - 2)], Except.ok xn⟩ := by
    rw [hcast]
    exact readGrid_of_get x _ xn hxn
  unfold sufficientMesher
  rw [if_pos h, hr1, bind_ok]
  by_cases hle : x1 ≤ x0
  · rw [if_pos hle, if_pos hle, hrn, bind_ok]
    rfl
  · rw [if_neg hle, if_neg hle]
    rfl

/-- C7: `fokkerPlanckPrice1D` fails with "insufficient mesher" exactly when
the grid has at most 3 points or `x0 < x[1]` or `x[n-2] < x0`; on a grid of at
most 3 points it fails without any recorded action (no read of `x`); and
whenever it fails so, its only actions are the reads of `x[1]` and `x[n-2]`:
no write, no call of `evolver.step`, no integration. -/
theorem fokkerPlanckPrice1D_insufficient_iff (c : Collaborators K) (x : List K)
    (x0 maturity : K) (tGrid fuel : ℕ) :
    ((fokkerPlanckPrice1D c x x0 maturity tGrid fuel).result
        = Except.error (Failure.required "insufficient mesher") ↔
      (x.length ≤ 3 ∨ (∃ x1, x[1]? = some x1 ∧ x0 < x1) ∨
        (∃ xn, x[x.length - 2]? = some xn ∧ xn < x0))) ∧
    (x.length ≤ 3 → fokkerPlanckPrice1D c x x0 maturity tGrid fuel
        = ⟨[], Except.error (Failure.required "insufficient mesher")⟩) ∧
    ((fokkerPlanckPrice1D c x x0 maturity tGrid fuel).result
        = Except.error (Failure.required "insufficient mesher") →
      ∀ e ∈ (fokkerPlanckPrice1D c x x0 maturity tGrid fuel).trace,
        e = Event.read 1 ∨ e = Event.read ((x.length : ℤ) - 2)) := by
  by_cases hlen : 3 < x.length
  · obtain ⟨x1, hx1⟩ : ∃ x1, x[1]? = some x1 :=
      ⟨x[1], List.getElem?_eq_getElem (by omega)⟩
    obtain ⟨xn, hxn⟩ : ∃ xn, x[x.length - 2]? = some xn :=
      ⟨x[x.length - 2], List.getElem?_eq_getElem (by omega)⟩
    have hsm := sufficientMesher_of_long x x0 x1 xn hlen hx1 hxn
    have hrest := notRequired_afterRequire c x x0 maturity tGrid fuel
    unfold fokkerPlanckPrice1D
    rw [hsm]
    by_cases hle : x1 ≤ x0
    · rw [if_pos hle, bind_ok]
      by_cases hge : xn ≥ x0
      · -- the requirement holds
        have hQ : (QL_REQUIRE (decide (xn ≥ x0)) "insufficient mesher" : Exec K Unit)
            = ⟨[], Except.ok ()⟩ := by
          unfold QL_REQUIRE
          rw [if_pos (by simpa using hge)]
          rfl
        rw [hQ, bind_ok]
        refine ⟨⟨fun h => absurd h (hrest _), ?_⟩, fun h => absurd h (by omega),
          fun h => absurd h (hrest _)⟩
        rintro (h | ⟨y, hy, hlt⟩ | ⟨y, hy, hlt⟩)
        · omega
        · rw [hx1] at hy; cases hy; exact absurd hle (not_le.mpr hlt)
        · rw [hxn] at hy; cases hy; exact absurd hge (not_le.mpr hlt)
      · have hQ : (QL_REQUIRE (decide (xn ≥ x0)) "insufficient mesher" : Exec K Unit)
            = ⟨[], Except.error (Failure.required "insufficient mesher")⟩ := by
          unfold QL_REQUIRE
          rw [if_neg (by simpa using hge)]
          rfl
        rw [hQ]
        refine ⟨⟨fun _ => Or.inr (Or.inr ⟨xn, hxn, not_le.mp hge⟩), fun _ => rfl⟩,
          fun h => absurd h (by omega), fun _ e he => ?_⟩
        change e ∈ [Event.read 1, Event.read ((x.length : ℤ) - 2)] ++ [] at he
        simpa using he
    · rw [if_neg hle, bind_ok]
      have hQ : (QL_REQUIRE false "insufficient mesher" : Exec K Unit)
          = ⟨[], Except.error (Failure.required "insufficient mesher")⟩ := rfl
      rw [hQ]
      refine ⟨⟨fun _ => Or.inr (Or.inl ⟨x1, hx1, not_le.mp hle⟩), fun _ => rfl⟩,
        fun h => absurd h (by omega), fun _ e he => ?_⟩
      change e ∈ [Event.read 1] ++ [] at he
      left
      simpa using he
  · have hsm := sufficientMesher_of_short x x0 hlen
    have hfail : fokkerPlanckPrice1D c x x0 maturity tGrid fuel
        = ⟨[], Except.error (Failure.required "insufficient mesher")⟩ := by
      unfold fokkerPlanckPrice1D
      rw [hsm, bind_ok]
      rfl
    rw [hfail]
    exact ⟨⟨fun _ => Or.inl (by omega), fun _ => rfl⟩, fun _ => rfl,
      fun _ e he => absurd he (List.not_mem_nil e)⟩

end FokkerPlanck1DTheorems

section StationaryTheorems

open MeasureTheory

theorem gamma_p_integrableOn (a x : ℝ) (ha : 0 < a) :
    IntegrableOn (fun t : ℝ => t ^ (a - 1) * Real.exp (-t)) (Set.Ioc 0 x) := by
  have h := (Real.GammaIntegral_convergent ha).mono_set
    (Set.Ioc_subset_Ioi_self : Set.Ioc (0 : ℝ) x ⊆ Set.Ioi 0)
  refine h.congr_fun (fun t _ => ?_) measurableSet_Ioc
  simp only [mul_comm]

theorem gamma_p_monotone (a : ℝ) (ha : 0 < a) : Monotone (gamma_p a) := by
  intro x y hxy
  unfold gamma_p
  refine div_le_div_of_nonneg_right ?_ (Real.Gamma_pos_of_pos ha).le
  refine setIntegral_mono_set (gamma_p_integrableOn a y ha) ?_ ?_
  · refine (ae_restrict_iff' measurableSet_Ioc).mpr (Filter.Eventually.of_forall ?_)
    intro t ht
    exact mul_nonneg (Real.rpow_nonneg ht.1.le _) (Real.exp_pos _).le
  · exact (Set.Ioc_subset_Ioc_right hxy).eventuallyLE

theorem gamma_p_inv_strictMonoOn (a : ℝ) (ha : 0 < a) (g : ℝ → ℝ)
    (hinv : ∀ q ∈ Set.Ioo (0 : ℝ) 1, gamma_p a (g q) = q) :
    StrictMonoOn g (Set.Ioo 0 1) := by
  intro q1 h1 q2 h2 hlt
  by_contra hcon
  have hle : g q2 ≤ g q1 := not_lt.mp hcon
  have := gamma_p_monotone a ha hle
  rw [hinv q1 h1, hinv q2 h2] at this
  exact absurd hlt (not_lt.mpr this)

end StationaryTheorems

section MesherTheorems

theorem quantileLevel_eq {K : Type} [LinearOrderedField K] (vGrid i : ℕ) (hv : 2 ≤ vGrid) :
    (quantileLevel vGrid i : K) = 0.01 + (i : K) * 0.98 / ((vGrid : K) - 1) := by
  unfold quantileLevel
  have h1 : ((vGrid - 1 : ℕ) : K) = (vGrid : K) - 1 := by
    rw [Nat.cast_sub (by omega)]; simp
  simp only [h1]
  norm_num
  ring

theorem quantileLevel_strictMono {K : Type} [LinearOrderedField K] (vGrid : ℕ)
    (hv : 2 ≤ vGrid) : StrictMono (fun i : ℕ => (quantileLevel vGrid i : K)) := by
  intro i j hij
  have hpos : (0 : K) < (vGrid : K) - 1 := by
    have : (2 : K) ≤ (vGrid : K) := by exact_mod_cast hv
    linarith
  simp only [quantileLevel_eq vGrid _ hv]
  have hij' : (i : K) < (j : K) := by exact_mod_cast hij
  have : (i : K) * 0.98 / ((vGrid : K) - 1) < (j : K) * 0.98 / ((vGrid : K) - 1) := by
    apply div_lt_div_of_pos_right _ hpos
    apply mul_lt_mul_of_pos_right hij'
    norm_num
  linarith

theorem quantileLevel_last {K : Type} [LinearOrderedField K] (vGrid : ℕ) (hv : 2 ≤ vGrid) :
    (quantileLevel vGrid (vGrid - 1) : K) = 0.99 := by
  rw [quantileLevel_eq vGrid _ hv]
  have h1 : ((vGrid - 1 : ℕ) : K) = (vGrid : K) - 1 := by
    rw [Nat.cast_sub (by omega)]; simp
  have hpos : (0 : K) < (vGrid : K) - 1 := by
    have : (2 : K) ≤ (vGrid : K) := by exact_mod_cast hv
    linarith
  rw [h1, mul_div_assoc, mul_div_cancel₀ _ hpos.ne']
  norm_num

theorem quantileLevel_first {K : Type} [LinearOrderedField K] (vGrid : ℕ) :
    (quantileLevel vGrid 0 : K) = 0.01 := by
  simp [quantileLevel]

theorem quantileLevel_mem_Ioo {K : Type} [LinearOrderedField K] (vGrid i : ℕ)
    (hv : 2 ≤ vGrid) (hi : i < vGrid) :
    (quantileLevel vGrid i : K) ∈ Set.Ioo (0 : K) 1 := by
  have hmono := (quantileLevel_strictMono (K := K) vGrid hv).monotone
  have h0 : (quantileLevel vGrid 0 : K) ≤ quantileLevel vGrid i := hmono (Nat.zero_le i)
  have h1 : (quantileLevel vGrid i : K) ≤ quantileLevel vGrid (vGrid - 1) :=
    hmono (by omega)
  rw [quantileLevel_first] at h0
  rw [quantileLevel_last vGrid hv] at h1
  constructor
  · refine lt_of_lt_of_le ?_ h0; norm_num
  · refine lt_of_le_of_lt h1 ?_; norm_num

end MesherTheorems

section C4C6

theorem createStationaryDistributionMesher_get {K : Type} [LinearOrderedField K]
    (m : SpecialFunctions K) (kappa theta sigma : K) (vGrid i : ℕ) (hi : i < vGrid) :
    (createStationaryDistributionMesher m kappa theta sigma vGrid)[i]? =
      some (invStationaryDistributionFct m kappa theta sigma (quantileLevel vGrid i)) := by
  unfold createStationaryDistributionMesher
  rw [List.getElem?_map, List.getElem?_range hi, Option.map_some']

theorem invStationaryDistributionFct_strictMonoOn (logValue : ℝ → ℝ)
    (gamma_p_inv : ℝ → ℝ → ℝ) (kappa theta sigma : ℝ)
    (hk : 0 < kappa) (hth : 0 < theta) (hs : 0 < sigma)
    (hinv : ∀ q ∈ Set.Ioo (0 : ℝ) 1,
      gamma_p (2 * kappa * theta / (sigma * sigma))
        (gamma_p_inv (2 * kappa * theta / (sigma * sigma)) q) = q) :
    StrictMonoOn
      (invStationaryDistributionFct (realFunctions logValue gamma_p_inv) kappa theta sigma)
      (Set.Ioo 0 1) := by
  have ha : 0 < 2 * kappa * theta / (sigma * sigma) := by positivity
  have hb : 0 < 2 * kappa * theta / (sigma * sigma) / theta := by positivity
  have hg := gamma_p_inv_strictMonoOn _ ha _ hinv
  intro q1 h1 q2 h2 hlt
  simp only [invStationaryDistributionFct, realFunctions]
  exact div_lt_div_of_pos_right (hg h1 h2 hlt) hb

theorem StationaryDistributionFct_inv (logValue : ℝ → ℝ)
    (gamma_p_inv : ℝ → ℝ → ℝ) (kappa theta sigma : ℝ)
    (hk : 0 < kappa) (hth : 0 < theta) (hs : 0 < sigma)
    (hinv : ∀ q ∈ Set.Ioo (0 : ℝ) 1,
      gamma_p (2 * kappa * theta / (sigma * sigma))
        (gamma_p_inv (2 * kappa * theta / (sigma * sigma)) q) = q)
    (q : ℝ) (hq : q ∈ Set.Ioo (0 : ℝ) 1) :
    StationaryDistributionFct kappa theta sigma
      (invStationaryDistributionFct (realFunctions logValue gamma_p_inv)
        kappa theta sigma q) = q := by
  have hb : 2 * kappa * theta / (sigma * sigma) / theta ≠ 0 := by positivity
  simp only [StationaryDistributionFct, invStationaryDistributionFct, realFunctions]
  rw [mul_div_cancel₀ _ hb]
  exact hinv q hq

/-- C4: for `vGrid ≥ 2` and `kappa, theta, sigma > 0`, with `gamma_p_inv` the
inverse of the regularised incomplete gamma function on `(0, 1)`, the vector
of `createStationaryDistributionMesher` has `vGrid` entries and is strictly
increasing; its `i`-th entry is `invStationaryDistributionFct` at the level
`0.01 + i*0.98/(vGrid-1)` and is the point where the stationary distribution
function `StationaryDistributionFct` takes that level; the levels start at
`0.01`, end at `0.99` and increase strictly; and `invStationaryDistributionFct`
is a right inverse of the stationary distribution function on `(0, 1)` and is
strictly increasing there. -/
theorem createStationaryDistributionMesher_strictly_increasing (logValue : ℝ → ℝ)
    (gamma_p_inv : ℝ → ℝ → ℝ) (kappa theta sigma : ℝ)
    (hk : 0 < kappa) (hth : 0 < theta) (hs : 0 < sigma) (vGrid : ℕ) (hv : 2 ≤ vGrid)
    (hinv : ∀ q ∈ Set.Ioo (0 : ℝ) 1,
      gamma_p (2 * kappa * theta / (sigma * sigma))
        (gamma_p_inv (2 * kappa * theta / (sigma * sigma)) q) = q) :
    (createStationaryDistributionMesher (realFunctions logValue gamma_p_inv)
        kappa theta sigma vGrid).length = vGrid ∧
    (createStationaryDistributionMesher (realFunctions logValue gamma_p_inv)
        kappa theta sigma vGrid).Sorted (· < ·) ∧
    (∀ i, i < vGrid →
      (createStationaryDistributionMesher (realFunctions logValue gamma_p_inv)
          kappa theta sigma vGrid)[i]? =
        some (invStationaryDistributionFct (realFunctions logValue gamma_p_inv)
          kappa theta sigma (0.01 + (i : ℝ) * 0.98 / ((vGrid : ℝ) - 1)))) ∧
    (∀ i, i < vGrid →
      ∃ entry,
        (createStationaryDistributionMesher (realFunctions logValue gamma_p_inv)
          kappa theta sigma vGrid)[i]? = some entry ∧
        StationaryDistributionFct kappa theta sigma entry
          = 0.01 + (i : ℝ) * 0.98 / ((vGrid : ℝ) - 1)) ∧
    ((0.01 : ℝ) + ((0 : ℕ) : ℝ) * 0.98 / ((vGrid : ℝ) - 1) = 0.01 ∧
      (0.01 : ℝ) + ((vGrid - 1 : ℕ) : ℝ) * 0.98 / ((vGrid : ℝ) - 1) = 0.99 ∧
      StrictMono (fun i : ℕ => (0.01 : ℝ) + (i : ℝ) * 0.98 / ((vGrid : ℝ) - 1))) ∧
    (∀ q ∈ Set.Ioo (0 : ℝ) 1,
      StationaryDistributionFct kappa theta sigma
        (invStationaryDistributionFct (realFunctions logValue gamma_p_inv)
          kappa theta sigma q) = q) ∧
    StrictMonoOn
      (invStationaryDistributionFct (realFunctions logValue gamma_p_inv) kappa theta sigma)
      (Set.Ioo 0 1) := by
  have hmono := invStationaryDistributionFct_strictMonoOn logValue gamma_p_inv
    kappa theta sigma hk hth hs hinv
  have hlev := quantileLevel_strictMono (K := ℝ) vGrid hv
  have hright := StationaryDistributionFct_inv logValue gamma_p_inv kappa theta sigma
    hk hth hs hinv
  refine ⟨?_, ?_, ?_, ?_, ⟨?_, ?_, ?_⟩, hright, hmono⟩
  · simp [createStationaryDistributionMesher]
  · unfold createStationaryDistributionMesher
    rw [List.Sorted, List.pairwise_map]
    refine List.Pairwise.imp_of_mem ?_ (List.pairwise_lt_range vGrid)
    intro i j hi hj hij
    exact hmono (quantileLevel_mem_Ioo vGrid i hv (List.mem_range.mp hi))
      (quantileLevel_mem_Ioo vGrid j hv (List.mem_range.mp hj)) (hlev hij)
  · intro i hi
    rw [createStationaryDistributionMesher_get _ _ _ _ _ _ hi,
      quantileLevel_eq vGrid i hv]
  · intro i hi
    refine ⟨_, createStationaryDistributionMesher_get _ _ _ _ _ _ hi, ?_⟩
    rw [hright _ (quantileLevel_mem_Ioo vGrid i hv hi), quantileLevel_eq vGrid i hv]
  · simp
  · rw [← quantileLevel_eq vGrid _ hv, quantileLevel_last vGrid hv]
  · intro i j hij
    have := hlev hij
    simp only [quantileLevel_eq vGrid _ hv] at this
    exact this

theorem gamma_p_one (x : ℝ) (hx : 0 ≤ x) : gamma_p 1 x = 1 - Real.exp (-x) := by
  unfold gamma_p
  rw [Real.Gamma_one, div_one, ← intervalIntegral.integral_of_le hx]
  simp only [sub_self, Real.rpow_zero, one_mul]
  rw [intervalIntegral.integral_comp_neg (fun t => Real.exp t), integral_exp]
  simp

/-- C4 (witness): `kappa = 1`, `theta = 1/2`, `sigma = 1` give the shape
`alpha = 1`, for which `gamma_p 1 x = 1 - exp (-x)` has the inverse
`q ↦ -log (1 - q)`; three grid points. -/
theorem createStationaryDistributionMesher_strictly_increasing_witness :
    (createStationaryDistributionMesher
        (realFunctions (fun _ => 0) (fun _ q => -Real.log (1 - q))) 1 (1 / 2) 1 3).Sorted
      (· < ·) :=
  (createStationaryDistributionMesher_strictly_increasing (fun _ => 0)
    (fun _ q => -Real.log (1 - q)) 1 (1 / 2) 1 (by norm_num) (by norm_num) (by norm_num)
    3 (by norm_num) (by
      intro q hq
      have h1 : (2 * 1 * (1 / 2) / (1 * 1) : ℝ) = 1 := by norm_num
      have hpos : 0 < 1 - q := by linarith [hq.2]
      have hnn : 0 ≤ -Real.log (1 - q) :=
        neg_nonneg.mpr (Real.log_nonpos hpos.le (by linarith [hq.1]))
      rw [h1, gamma_p_one _ hnn, neg_neg, Real.exp_log hpos]
      ring)).2.1

theorem transformedDensity_eq (logValue : ℝ → ℝ) (gamma_p_inv : ℝ → ℝ → ℝ)
    (kappa theta sigma v : ℝ) (hv : 0 < v) :
    transformedDensity (realFunctions logValue gamma_p_inv) kappa theta sigma v
      = (2 * kappa * theta / (sigma * sigma) / theta) ^ (2 * kappa * theta / (sigma * sigma))
        * Real.exp (-(2 * kappa * theta / (sigma * sigma) / theta) * v
            - logValue (2 * kappa * theta / (sigma * sigma))) := by
  set a := 2 * kappa * theta / (sigma * sigma) with ha_def
  set b := a / theta with hb_def
  have hpow : v ^ (1 - a) * v ^ (a - 1) = 1 := by
    rw [← Real.rpow_add hv]
    have : 1 - a + (a - 1) = 0 := by ring
    rw [this, Real.rpow_zero]
  have h10 : (1.0 : ℝ) = 1 := by norm_num
  simp only [transformedDensity, stationaryProbabilityFct, realFunctions, h10]
  calc v ^ (1 - a) * (b ^ a * v ^ (a - 1) * Real.exp (-b * v - logValue a))
      = (v ^ (1 - a) * v ^ (a - 1)) * (b ^ a * Real.exp (-b * v - logValue a)) := by ring
    _ = b ^ a * Real.exp (-b * v - logValue a) := by rw [hpow, one_mul]

/-- C6: for `kappa, theta, sigma, v > 0`, with `a = 2*kappa*theta/sigma^2`,
`beta = a/theta` and `logValue a = log (Gamma a)`, the transformed density
`q(v) = v^(1-a) * stationaryProbabilityFct(kappa, theta, sigma, v)` equals
`beta^a * exp(-beta*v - logValue a)` and is at most `beta^a / Gamma a`; this
holds for every `a > 0`, also when the Feller condition fails (`a < 1`). -/
theorem transformedDensity_closed_form (logValue : ℝ → ℝ) (gamma_p_inv : ℝ → ℝ → ℝ)
    (kappa theta sigma v : ℝ) (hk : 0 < kappa) (hth : 0 < theta) (hs : 0 < sigma)
    (hv : 0 < v)
    (hlog : logValue (2 * kappa * theta / (sigma * sigma))
      = Real.log (Real.Gamma (2 * kappa * theta / (sigma * sigma)))) :
    transformedDensity (realFunctions logValue gamma_p_inv) kappa theta sigma v
        = (2 * kappa * theta / (sigma * sigma) / theta) ^ (2 * kappa * theta / (sigma * sigma))
          * Real.exp (-(2 * kappa * theta / (sigma * sigma) / theta) * v
              - logValue (2 * kappa * theta / (sigma * sigma))) ∧
      transformedDensity (realFunctions logValue gamma_p_inv) kappa theta sigma v
        ≤ (2 * kappa * theta / (sigma * sigma) / theta) ^ (2 * kappa * theta / (sigma * sigma))
          / Real.Gamma (2 * kappa * theta / (sigma * sigma)) := by
  have ha : 0 < 2 * kappa * theta / (sigma * sigma) := by positivity
  have hb : 0 < 2 * kappa * theta / (sigma * sigma) / theta := by positivity
  have heq := transformedDensity_eq logValue gamma_p_inv kappa theta sigma v hv
  refine ⟨heq, ?_⟩
  rw [heq, hlog]
  set a := 2 * kappa * theta / (sigma * sigma) with ha_def
  set b := a / theta with hb_def
  have hG : 0 < Real.Gamma a := Real.Gamma_pos_of_pos ha
  rw [sub_eq_add_neg, Real.exp_add, Real.exp_neg (Real.log _), Real.exp_log hG,
    div_eq_mul_inv]
  have hexp : Real.exp (-b * v) ≤ 1 := by
    rw [Real.exp_le_one_iff]
    nlinarith [mul_pos hb hv]
  have hba : 0 ≤ b ^ a := Real.rpow_nonneg hb.le _
  have hGi : 0 ≤ (Real.Gamma a)⁻¹ := (inv_pos.mpr hG).le
  calc b ^ a * (Real.exp (-b * v) * (Real.Gamma a)⁻¹)
      ≤ b ^ a * (1 * (Real.Gamma a)⁻¹) := by gcongr
    _ = b ^ a * (Real.Gamma a)⁻¹ := by rw [one_mul]

/-- C6 (witness): `kappa = 1`, `theta = 1`, `sigma = 2`, `v = 1`, where
`a = 1/2` violates the Feller condition. -/
theorem transformedDensity_closed_form_witness :
    transformedDensity (realFunctions (fun x => Real.log (Real.Gamma x)) (fun _ q => q))
        1 1 2 1
      ≤ (2 * 1 * 1 / (2 * 2) / 1 : ℝ) ^ (2 * 1 * 1 / (2 * 2) : ℝ)
          / Real.Gamma (2 * 1 * 1 / (2 * 2)) :=
  (transformedDensity_closed_form (fun x => Real.log (Real.Gamma x)) (fun _ q => q)
    1 1 2 1 (by norm_num) (by norm_num) (by norm_num) (by norm_num) rfl).2

end C4C6

section ForwardEquationTestTheorems

/-- C9 (the code at the `Log` test cases): for the two test cases with the
`Log` transformation, `cPoints` holds the lower bound `log(1e-5)` with density
`1` and nothing else: no entry is a must-be-exact point, and none has the
location `log(v0)` with density `10` or the density `100`.  For the `Power`
and `Plain` test cases the list does hold the must-be-exact point at `v0`. -/
theorem log_cPoints_only_lower_bound (logValue : ℝ → ℝ) (gamma_p_inv : ℝ → ℝ → ℝ) :
    (∀ tc ∈ testCases (realFunctions logValue gamma_p_inv),
      tc.trafoType = TransformationType.Log →
        (varianceMesherSetup (realFunctions logValue gamma_p_inv) tc).cPoints
            = [(Real.log 0.00001, 1, false)] ∧
          (Real.log tc.v0, 10, true) ∉
            (varianceMesherSetup (realFunctions logValue gamma_p_inv) tc).cPoints ∧
          ∀ cp ∈ (varianceMesherSetup (realFunctions logValue gamma_p_inv) tc).cPoints,
            cp.2.2 = false ∧ cp.2.1 ≠ 100) ∧
    (∀ tc ∈ testCases (realFunctions logValue gamma_p_inv),
      tc.trafoType ≠ TransformationType.Log →
        ∃ density, (tc.v0, density, true) ∈
          (varianceMesherSetup (realFunctions logValue gamma_p_inv) tc).cPoints) := by
  constructor
  · intro tc htc hlog
    simp only [testCases, List.mem_cons, List.mem_singleton, List.not_mem_nil, or_false] at htc
    rcases htc with h | h | h | h <;> subst h <;>
      simp [varianceMesherSetup, FillStatement.run, realFunctions] at hlog ⊢ <;> norm_num
  · intro tc htc hlog
    simp only [testCases, List.mem_cons, List.mem_singleton, List.not_mem_nil, or_false] at htc
    rcases htc with h | h | h | h <;> subst h <;>
      simp [varianceMesherSetup, FillStatement.run, realFunctions] at hlog ⊢

end ForwardEquationTestTheorems

section ExpStencil

theorem exp_neg_cubic_bound (t : ℝ) (h0 : 0 ≤ t) (h1 : t ≤ 1) :
    |Real.exp (-t) - (1 - t + t ^ 2 / 2 - t ^ 3 / 6)| ≤ 5 / 96 * t ^ 4 := by
  have h := Real.exp_bound (x := -t) (by rw [abs_neg, abs_of_nonneg h0]; exact h1)
    (n := 4) (by norm_num)
  simp only [Finset.sum_range_succ, Finset.sum_range_zero, Nat.factorial, abs_neg,
    abs_of_nonneg h0] at h
  norm_num at h
  have e : Real.exp (-t) - (1 - t + t ^ 2 / 2 - t ^ 3 / 6)
      = Real.exp (-t) - (1 + -t + t ^ 2 / 2 + (-t) ^ 3 / 6) := by ring
  rw [e]
  linarith [h]

theorem expRemainderQuotient_hasDerivAt (t : ℝ) (ht : 0 < t) :
    HasDerivAt expRemainderQuotient ((t - 2 + (t + 2) * Real.exp (-t)) / t ^ 3) t := by
  have hexp : HasDerivAt (fun s : ℝ => Real.exp (-s)) (-Real.exp (-t)) t := by
    have := (hasDerivAt_neg t).exp
    simpa [mul_comm] using this
  have hnum : HasDerivAt (fun s : ℝ => 1 - s + s ^ 2 / 2 - Real.exp (-s))
      (-1 + t + Real.exp (-t)) t := by
    have h1 : HasDerivAt (fun s : ℝ => 1 - s + s ^ 2 / 2) (-1 + t) t := by
      have := ((hasDerivAt_const t (1 : ℝ)).sub (hasDerivAt_id t)).add
        (((hasDerivAt_id t).pow 2).div_const 2)
      convert this using 1
      simp
    convert h1.sub hexp using 1
    ring
  have hden : HasDerivAt (fun s : ℝ => s ^ 2) (2 * t) t := by
    simpa using (hasDerivAt_id t).pow 2
  have hq := hnum.div hden (pow_ne_zero 2 ht.ne')
  convert hq using 1
  field_simp
  ring

theorem expRemainderQuotient_deriv_bound (t : ℝ) (ht : 0 < t) (ht' : t ≤ 1 / 25) :
    |(t - 2 + (t + 2) * Real.exp (-t)) / t ^ 3| ≤ 9 / 50 := by
  have h := exp_neg_cubic_bound t ht.le (by linarith)
  rw [abs_le] at h
  have ht3 : 0 < t ^ 3 := pow_pos ht 3
  rw [abs_le]
  constructor
  · rw [le_div_iff₀ ht3]
    nlinarith [h.1, h.2, pow_pos ht 4, mul_pos ht ht3]
  · rw [div_le_iff₀ ht3]
    nlinarith [h.1, h.2, pow_pos ht 4, mul_pos ht ht3]

theorem expRemainderQuotient_lipschitz (u w : ℝ) (hu : 0 < u) (hw : 0 < w)
    (hu' : u ≤ 1 / 25) (hw' : w ≤ 1 / 25) :
    |expRemainderQuotient w - expRemainderQuotient u| ≤ 9 / 50 * |w - u| := by
  have hconv : Convex ℝ (Set.Ioc (0 : ℝ) (1 / 25)) := convex_Ioc _ _
  have := hconv.norm_image_sub_le_of_norm_hasDerivWithin_le
    (f := expRemainderQuotient) (C := 9 / 50)
    (fun t ht => (expRemainderQuotient_hasDerivAt t ht.1).hasDerivWithinAt)
    (fun t ht => by
      rw [Real.norm_eq_abs]
      exact expRemainderQuotient_deriv_bound t ht.1 ht.2)
    ⟨hu, hu'⟩ ⟨hw, hw'⟩
  simpa [Real.norm_eq_abs] using this

end ExpStencil
section GammaBounds

open MeasureTheory

theorem gamma_p_of_nonpos (a x : ℝ) (hx : x ≤ 0) : gamma_p a x = 0 := by
  unfold gamma_p
  rw [Set.Ioc_eq_empty (not_lt.mpr hx)]
  simp

theorem gamma_p_inv_pos (a : ℝ) (g : ℝ → ℝ) (q : ℝ) (hq : 0 < q)
    (h : gamma_p a (g q) = q) : 0 < g q := by
  by_contra hcon
  rw [gamma_p_of_nonpos a _ (not_lt.mp hcon)] at h
  linarith

theorem Gamma_six_fifths_le_one : Real.Gamma (6 / 5) ≤ 1 := by
  have h : Real.Gamma ((4 / 5 : ℝ) • (1 : ℝ) + (1 / 5 : ℝ) • (2 : ℝ))
      ≤ (4 / 5 : ℝ) • Real.Gamma 1 + (1 / 5 : ℝ) • Real.Gamma 2 :=
    Real.convexOn_Gamma.2 (by norm_num) (by norm_num) (by norm_num) (by norm_num)
      (by norm_num)
  simp only [smul_eq_mul, Real.Gamma_one, Real.Gamma_two] at h
  norm_num at h
  exact h

theorem Gamma_one_fifth_eq : Real.Gamma (1 / 5) = 5 * Real.Gamma (6 / 5) := by
  have h := Real.Gamma_add_one (s := 1 / 5) (by norm_num)
  have e : (1 / 5 : ℝ) + 1 = 6 / 5 := by norm_num
  rw [e] at h
  rw [h]
  ring

theorem Gamma_one_fifth_le : Real.Gamma (1 / 5) ≤ 5 := by
  rw [Gamma_one_fifth_eq]
  linarith [Gamma_six_fifths_le_one]

theorem Gamma_one_fifth_ge : (5 : ℝ) ^ (4 / 5 : ℝ) ≤ Real.Gamma (1 / 5) := by
  have h := Real.Gamma_mul_add_mul_le_rpow_Gamma_mul_rpow_Gamma (s := 6 / 5) (t := 1 / 5)
    (a := 4 / 5) (b := 1 / 5) (by norm_num) (by norm_num) (by norm_num) (by norm_num)
    (by norm_num)
  have e : (4 / 5 : ℝ) * (6 / 5) + 1 / 5 * (1 / 5) = 1 := by norm_num
  rw [e, Real.Gamma_one] at h
  have hG : 0 < Real.Gamma (1 / 5) := Real.Gamma_pos_of_pos (by norm_num)
  have h65 : Real.Gamma (6 / 5) = Real.Gamma (1 / 5) / 5 := by
    rw [Gamma_one_fifth_eq]; ring
  rw [h65, Real.div_rpow hG.le (by norm_num)] at h
  have h5 : (0 : ℝ) < 5 ^ (4 / 5 : ℝ) := Real.rpow_pos_of_pos (by norm_num) _
  have hmul : Real.Gamma (1 / 5) ^ (4 / 5 : ℝ) * Real.Gamma (1 / 5) ^ (1 / 5 : ℝ)
      = Real.Gamma (1 / 5) := by
    rw [← Real.rpow_add hG]
    norm_num
  have : 1 ≤ Real.Gamma (1 / 5) / 5 ^ (4 / 5 : ℝ) := by
    calc 1 ≤ Real.Gamma (1 / 5) ^ (4 / 5 : ℝ) / 5 ^ (4 / 5 : ℝ)
          * Real.Gamma (1 / 5) ^ (1 / 5 : ℝ) := h
      _ = Real.Gamma (1 / 5) ^ (4 / 5 : ℝ) * Real.Gamma (1 / 5) ^ (1 / 5 : ℝ)
          / 5 ^ (4 / 5 : ℝ) := by ring
      _ = Real.Gamma (1 / 5) / 5 ^ (4 / 5 : ℝ) := by rw [hmul]
  rwa [le_div_iff₀ h5, one_mul] at this

theorem rpow_one_fifth_le (x y : ℝ) (hx : 0 ≤ x) (hy : 0 ≤ y) (h : x ≤ y ^ 5) :
    x ^ (1 / 5 : ℝ) ≤ y := by
  have h1 := Real.rpow_le_rpow hx h (by norm_num : (0 : ℝ) ≤ 1 / 5)
  have h2 : (y ^ 5) ^ (1 / 5 : ℝ) = y := by
    have := Real.pow_rpow_inv_natCast hy (n := 5) (by norm_num)
    simpa using this
  rwa [h2] at h1

theorem le_rpow_one_fifth (x y : ℝ) (hy : 0 ≤ y) (h : y ^ 5 ≤ x) :
    y ≤ x ^ (1 / 5 : ℝ) := by
  have h1 := Real.rpow_le_rpow (pow_nonneg hy 5) h (by norm_num : (0 : ℝ) ≤ 1 / 5)
  have h2 : (y ^ 5) ^ (1 / 5 : ℝ) = y := by
    have := Real.pow_rpow_inv_natCast hy (n := 5) (by norm_num)
    simpa using this
  rwa [h2] at h1

/-- The constant `beta^a / Gamma a` for `a = 1/5`, `beta = 1/2`. -/
theorem density_constant_le : (1 / 2 : ℝ) ^ (1 / 5 : ℝ) / Real.Gamma (1 / 5) ≤ 121 / 500 := by
  have hG := Gamma_one_fifth_ge
  have h5 : (0 : ℝ) < 5 ^ (4 / 5 : ℝ) := Real.rpow_pos_of_pos (by norm_num) _
  have hhalf : (0 : ℝ) ≤ (1 / 2 : ℝ) ^ (1 / 5 : ℝ) := Real.rpow_nonneg (by norm_num) _
  have h1 : (1 / 2 : ℝ) ^ (1 / 5 : ℝ) / Real.Gamma (1 / 5)
      ≤ (1 / 2 : ℝ) ^ (1 / 5 : ℝ) / 5 ^ (4 / 5 : ℝ) :=
    div_le_div_of_nonneg_left hhalf h5 hG
  have h2 : (1 / 2 : ℝ) ^ (1 / 5 : ℝ) / 5 ^ (4 / 5 : ℝ) = (5 / 2 : ℝ) ^ (1 / 5 : ℝ) / 5 := by
    have e1 : (5 : ℝ) ^ (4 / 5 : ℝ) * 5 ^ (1 / 5 : ℝ) = 5 := by
      rw [← Real.rpow_add (by norm_num)]; norm_num
    have e2 : (5 / 2 : ℝ) ^ (1 / 5 : ℝ) = (1 / 2 : ℝ) ^ (1 / 5 : ℝ) * 5 ^ (1 / 5 : ℝ) := by
      rw [← Real.mul_rpow (by norm_num) (by norm_num)]; norm_num
    rw [e2, div_eq_div_iff h5.ne' (by norm_num)]
    calc (1 / 2 : ℝ) ^ (1 / 5 : ℝ) * 5
        = (1 / 2 : ℝ) ^ (1 / 5 : ℝ) * (5 ^ (4 / 5 : ℝ) * 5 ^ (1 / 5 : ℝ)) := by rw [e1]
      _ = (1 / 2 : ℝ) ^ (1 / 5 : ℝ) * 5 ^ (1 / 5 : ℝ) * 5 ^ (4 / 5 : ℝ) := by ring
  have h3 : (5 / 2 : ℝ) ^ (1 / 5 : ℝ) ≤ 121 / 100 :=
    rpow_one_fifth_le _ _ (by norm_num) (by norm_num) (by norm_num)
  rw [h2] at h1
  linarith

end GammaBounds
section GammaPBound

open MeasureTheory

theorem gamma_p_lower_bound : 259 / 500 ≤ gamma_p (1 / 5) (1 / 25) := by
  have hle : (0 : ℝ) ≤ 1 / 25 := by norm_num
  have hr1 : (-1 : ℝ) < 1 / 5 - 1 := by norm_num
  have hr2 : (-1 : ℝ) < 1 / 5 := by norm_num
  have hf1 : IntervalIntegrable (fun t : ℝ => t ^ (1 / 5 - 1 : ℝ)) volume 0 (1 / 25) :=
    intervalIntegral.intervalIntegrable_rpow' hr1
  have hf2 : IntervalIntegrable (fun t : ℝ => t ^ (1 / 5 : ℝ)) volume 0 (1 / 25) :=
    intervalIntegral.intervalIntegrable_rpow' hr2
  have hg : IntervalIntegrable (fun t : ℝ => t ^ (1 / 5 - 1 : ℝ) * Real.exp (-t)) volume 0
      (1 / 25) :=
    hf1.mul_continuousOn (Real.continuous_exp.comp continuous_neg).continuousOn
  have hmono : ∫ t in (0 : ℝ)..(1 / 25), (t ^ (1 / 5 - 1 : ℝ) - t ^ (1 / 5 : ℝ))
      ≤ ∫ t in (0 : ℝ)..(1 / 25), t ^ (1 / 5 - 1 : ℝ) * Real.exp (-t) := by
    refine intervalIntegral.integral_mono_on hle (hf1.sub hf2) hg ?_
    intro t ht
    rcases eq_or_lt_of_le ht.1 with h0 | hpos
    · rw [← h0]
      rw [Real.zero_rpow (by norm_num), Real.zero_rpow (by norm_num)]
      simp
    · have hsplit : t ^ (1 / 5 : ℝ) = t ^ (1 / 5 - 1 : ℝ) * t := by
        have := Real.rpow_add_one hpos.ne' (1 / 5 - 1 : ℝ)
        rw [← this]
        norm_num
      have hexp : 1 - t ≤ Real.exp (-t) := by
        have := Real.add_one_le_exp (-t)
        linarith
      have hnn : 0 ≤ t ^ (1 / 5 - 1 : ℝ) := Real.rpow_nonneg hpos.le _
      rw [hsplit]
      nlinarith [mul_le_mul_of_nonneg_left hexp hnn]
  have hval : ∫ t in (0 : ℝ)..(1 / 25), (t ^ (1 / 5 - 1 : ℝ) - t ^ (1 / 5 : ℝ))
      = (1 / 25 : ℝ) ^ (1 / 5 : ℝ) / (1 / 5) - (1 / 25 : ℝ) ^ (6 / 5 : ℝ) / (6 / 5) := by
    rw [intervalIntegral.integral_sub hf1 hf2, integral_rpow (Or.inl hr1),
      integral_rpow (Or.inl hr2)]
    have e1 : (1 / 5 - 1 + 1 : ℝ) = 1 / 5 := by norm_num
    have e2 : (1 / 5 + 1 : ℝ) = 6 / 5 := by norm_num
    rw [e1, e2, Real.zero_rpow (by norm_num), Real.zero_rpow (by norm_num)]
    simp
  have hlow : (21 / 40 : ℝ) ≤ (1 / 25 : ℝ) ^ (1 / 5 : ℝ) :=
    le_rpow_one_fifth _ _ (by norm_num) (by norm_num)
  have hup : (1 / 25 : ℝ) ^ (6 / 5 : ℝ) ≤ 1 / 25 := by
    have := Real.rpow_le_rpow_of_exponent_ge (by norm_num : (0 : ℝ) < 1 / 25)
      (by norm_num : (1 / 25 : ℝ) ≤ 1) (by norm_num : (1 : ℝ) ≤ 6 / 5)
    simpa using this
  have hI : (311 / 120 : ℝ) ≤ ∫ t in Set.Ioc (0 : ℝ) (1 / 25),
      t ^ (1 / 5 - 1 : ℝ) * Real.exp (-t) := by
    rw [← intervalIntegral.integral_of_le hle]
    refine le_trans ?_ hmono
    rw [hval]
    linarith
  have hG := Gamma_one_fifth_le
  have hGpos : 0 < Real.Gamma (1 / 5) := Real.Gamma_pos_of_pos (by norm_num)
  unfold gamma_p
  rw [le_div_iff₀ hGpos]
  nlinarith

end GammaPBound
section FlowBound

theorem stencil_exp_error (hm hp : ℝ) (hhm : 0 < hm) (hhp : 0 < hp)
    (hs : hm + hp ≤ 2 / 25) :
    |stencilA hm hp + stencilB hm hp * Real.exp (-(hm / 2))
        + stencilC hm hp * Real.exp (-((hm + hp) / 2)) + 1 / 2|
      ≤ 9 / 400 * (hm * (hm + hp)) := by
  have hsum : 0 < hm + hp := add_pos hhm hhp
  have key : stencilA hm hp + stencilB hm hp * Real.exp (-(hm / 2))
        + stencilC hm hp * Real.exp (-((hm + hp) / 2)) + 1 / 2
      = hm * (hm + hp) / (4 * hp)
        * (expRemainderQuotient ((hm + hp) / 2) - expRemainderQuotient (hm / 2)) := by
    unfold stencilA stencilB stencilC stencilEta expRemainderQuotient
    generalize Real.exp (-(hm / 2)) = eu
    generalize Real.exp (-((hm + hp) / 2)) = ew
    field_simp
    ring
  have hlip := expRemainderQuotient_lipschitz (hm / 2) ((hm + hp) / 2) (by positivity)
    (by positivity) (by linarith) (by linarith)
  have hdiff : |(hm + hp) / 2 - hm / 2| = hp / 2 := by
    rw [abs_of_nonneg (by linarith)]
    ring
  rw [hdiff] at hlip
  have hc : 0 ≤ hm * (hm + hp) / (4 * hp) := by positivity
  rw [key, abs_mul, abs_of_nonneg hc]
  calc hm * (hm + hp) / (4 * hp)
        * |expRemainderQuotient ((hm + hp) / 2) - expRemainderQuotient (hm / 2)|
      ≤ hm * (hm + hp) / (4 * hp) * (9 / 50 * (hp / 2)) :=
        mul_le_mul_of_nonneg_left hlip hc
    _ = 9 / 400 * (hm * (hm + hp)) := by
        field_simp
        ring

theorem flow_bound_of_points (Q0 x0 x1 x2 : ℝ) (hQ0 : 0 ≤ Q0) (hQ : Q0 ≤ 121 / 500)
    (h0 : 0 < x0) (h01 : x0 < x1) (h12 : x1 < x2) (h2 : x2 ≤ 2 / 25) :
    |0.5 * 2.0 * 2.0 * x0 * stencilDf (x1 - x0) (x2 - x1) (Q0 * Real.exp (-(x0 / 2)))
          (Q0 * Real.exp (-(x1 / 2))) (Q0 * Real.exp (-(x2 / 2)))
        + 1.0 * x0 * (Q0 * Real.exp (-(x0 / 2)))| ≤ 1e-6 := by
  have hhm : 0 < x1 - x0 := by linarith
  have hhp : 0 < x2 - x1 := by linarith
  have herr := stencil_exp_error (x1 - x0) (x2 - x1) hhm hhp (by linarith)
  have e1 : Real.exp (-(x1 / 2)) = Real.exp (-(x0 / 2)) * Real.exp (-((x1 - x0) / 2)) := by
    rw [← Real.exp_add]; congr 1; ring
  have e2 : Real.exp (-(x2 / 2))
      = Real.exp (-(x0 / 2)) * Real.exp (-((x1 - x0 + (x2 - x1)) / 2)) := by
    rw [← Real.exp_add]; congr 1; ring
  have hexp0 : Real.exp (-(x0 / 2)) ≤ 1 := by
    rw [Real.exp_le_one_iff]; linarith
  have hexp0' : 0 < Real.exp (-(x0 / 2)) := Real.exp_pos _
  have key : 0.5 * 2.0 * 2.0 * x0 * stencilDf (x1 - x0) (x2 - x1) (Q0 * Real.exp (-(x0 / 2)))
          (Q0 * Real.exp (-(x1 / 2))) (Q0 * Real.exp (-(x2 / 2)))
        + 1.0 * x0 * (Q0 * Real.exp (-(x0 / 2)))
      = 2 * x0 * Q0 * Real.exp (-(x0 / 2))
        * (stencilA (x1 - x0) (x2 - x1)
            + stencilB (x1 - x0) (x2 - x1) * Real.exp (-((x1 - x0) / 2))
            + stencilC (x1 - x0) (x2 - x1) * Real.exp (-((x1 - x0 + (x2 - x1)) / 2))
            + 1 / 2) := by
    rw [e1, e2]
    unfold stencilDf
    norm_num
    ring
  have hfac : 0 ≤ 2 * x0 * Q0 * Real.exp (-(x0 / 2)) := by positivity
  rw [key, abs_mul, abs_of_nonneg hfac]
  have hprod : x0 * ((x1 - x0) * (x1 - x0 + (x2 - x1))) ≤ 4 / 27 * (2 / 25) ^ 3 := by
    have ha : (x1 - x0) * (x1 - x0 + (x2 - x1)) ≤ (x2 - x0) * (x2 - x0) := by
      nlinarith
    have hb : x0 * ((x2 - x0) * (x2 - x0)) ≤ 4 / 27 * x2 ^ 3 := by
      nlinarith [mul_nonneg (sq_nonneg (x2 - 3 * x0)) (by linarith : (0 : ℝ) ≤ 4 * x2 - 3 * x0)]
    have hc : x2 ^ 3 ≤ (2 / 25) ^ 3 := pow_le_pow_left₀ (by linarith) h2 3
    calc x0 * ((x1 - x0) * (x1 - x0 + (x2 - x1)))
        ≤ x0 * ((x2 - x0) * (x2 - x0)) := mul_le_mul_of_nonneg_left ha h0.le
      _ ≤ 4 / 27 * x2 ^ 3 := hb
      _ ≤ 4 / 27 * (2 / 25) ^ 3 := by linarith
  have hfac2 : 2 * x0 * Q0 * Real.exp (-(x0 / 2)) ≤ 2 * x0 * (121 / 500) := by
    have : Q0 * Real.exp (-(x0 / 2)) ≤ 121 / 500 * 1 :=
      mul_le_mul hQ hexp0 hexp0'.le (by norm_num)
    nlinarith
  calc 2 * x0 * Q0 * Real.exp (-(x0 / 2))
        * |stencilA (x1 - x0) (x2 - x1)
            + stencilB (x1 - x0) (x2 - x1) * Real.exp (-((x1 - x0) / 2))
            + stencilC (x1 - x0) (x2 - x1) * Real.exp (-((x1 - x0 + (x2 - x1)) / 2))
            + 1 / 2|
      ≤ 2 * x0 * (121 / 500) * (9 / 400 * ((x1 - x0) * (x1 - x0 + (x2 - x1)))) :=
        mul_le_mul hfac2 herr (abs_nonneg _) (by positivity)
    _ = 2 * (121 / 500) * (9 / 400) * (x0 * ((x1 - x0) * (x1 - x0 + (x2 - x1)))) := by ring
    _ ≤ 2 * (121 / 500) * (9 / 400) * (4 / 27 * (2 / 25) ^ 3) := by
        apply mul_le_mul_of_nonneg_left hprod (by norm_num)
    _ ≤ 1e-6 := by norm_num

end FlowBound
section ZeroFlowTheorems

theorem zipWith_map_self {α β γ : Type} (f : α → β → γ) (g : α → β) (l : List α) :
    List.zipWith f l (l.map g) = l.map (fun x => f x (g x)) := by
  induction l with
  | nil => rfl
  | cons x xs ih => simp [ih]

theorem invStationaryDistributionFct_test (logValue : ℝ → ℝ) (gamma_p_inv : ℝ → ℝ → ℝ)
    (q : ℝ) :
    invStationaryDistributionFct (realFunctions logValue gamma_p_inv) 1.0 0.4 2.0 q
      = gamma_p_inv (1 / 5) q / (1 / 2) := by
  have ha : (2 * 1.0 * 0.4 / (2.0 * 2.0) : ℝ) = 1 / 5 := by norm_num
  have hb : (1 / 5 : ℝ) / 0.4 = 1 / 2 := by norm_num
  simp only [invStationaryDistributionFct, realFunctions, ha, hb]

theorem transformedDensity_test (logValue : ℝ → ℝ) (gamma_p_inv : ℝ → ℝ → ℝ)
    (hlog : logValue (1 / 5) = Real.log (Real.Gamma (1 / 5))) (x : ℝ) (hx : 0 < x) :
    transformedDensity (realFunctions logValue gamma_p_inv) 1.0 0.4 2.0 x
      = (1 / 2 : ℝ) ^ (1 / 5 : ℝ) / Real.Gamma (1 / 5) * Real.exp (-(x / 2)) := by
  have ha : (2 * 1.0 * 0.4 / (2.0 * 2.0) : ℝ) = 1 / 5 := by norm_num
  have hb : (1 / 5 : ℝ) / 0.4 = 1 / 2 := by norm_num
  have hG : 0 < Real.Gamma (1 / 5) := Real.Gamma_pos_of_pos (by norm_num)
  rw [transformedDensity_eq logValue gamma_p_inv 1.0 0.4 2.0 x hx, ha, hb, hlog,
    sub_eq_add_neg, Real.exp_add, Real.exp_neg (Real.log _), Real.exp_log hG]
  have : -(1 / 2 : ℝ) * x = -(x / 2) := by ring
  rw [this]
  ring

theorem quantileLevel_le_of_le (j : ℕ) (hj : j ≤ 51) :
    (quantileLevel 100 j : ℝ) < 259 / 500 := by
  have hmono := (quantileLevel_strictMono (K := ℝ) 100 (by norm_num)).monotone hj
  have h51 : (quantileLevel 100 51 : ℝ) < 259 / 500 := by
    rw [quantileLevel_eq 100 51 (by norm_num)]
    norm_num
  exact lt_of_le_of_lt hmono h51

theorem gamma_p_inv_le_of_level (gamma_p_inv : ℝ → ℝ → ℝ)
    (hinv : ∀ q ∈ Set.Ioo (0 : ℝ) 1, gamma_p (1 / 5) (gamma_p_inv (1 / 5) q) = q)
    (j : ℕ) (hj : j ≤ 51) :
    gamma_p_inv (1 / 5) (quantileLevel 100 j) ≤ 1 / 25 := by
  by_contra hcon
  have hlt : (1 / 25 : ℝ) < gamma_p_inv (1 / 5) (quantileLevel 100 j) := not_le.mp hcon
  have hm := gamma_p_monotone (1 / 5) (by norm_num) hlt.le
  rw [hinv _ (quantileLevel_mem_Ioo 100 j (by norm_num) (by omega))] at hm
  linarith [gamma_p_lower_bound, quantileLevel_le_of_le j hj]

/-- C2: in `testTransformedZeroFlowBC` (`kappa = 1`, `theta = 0.4`,
`sigma = 2`, so that `2*kappa*theta/sigma^2 = 1/5`, on the 100 quantile points
from level `0.01` to level `0.99`), with `logValue` the logarithm of the Gamma
function at `1/5` and `gamma_p_inv (1/5)` the inverse of the regularised
incomplete gamma function on `(0, 1)`, every iteration `i < 50` computes a
value `flow`, and `|flow| ≤ 1e-6`. -/
theorem testTransformedZeroFlowBC_within_tolerance (logValue : ℝ → ℝ)
    (gamma_p_inv : ℝ → ℝ → ℝ)
    (hlog : logValue (1 / 5) = Real.log (Real.Gamma (1 / 5)))
    (hinv : ∀ q ∈ Set.Ioo (0 : ℝ) 1, gamma_p (1 / 5) (gamma_p_inv (1 / 5) q) = q)
    (i : ℕ) (hi : i < 50) :
    ∃ flow, (testTransformedZeroFlowBC (realFunctions logValue gamma_p_inv))[i]?
        = some (some flow) ∧ |flow| ≤ zeroFlowBCTolerance := by
  set m := realFunctions logValue gamma_p_inv with hm
  -- the grid points
  set V : ℕ → ℝ := fun j => gamma_p_inv (1 / 5) (quantileLevel 100 j) / (1 / 2) with hV
  have hlevel : ∀ j, j < 100 → (quantileLevel 100 j : ℝ) ∈ Set.Ioo (0 : ℝ) 1 :=
    fun j hj => quantileLevel_mem_Ioo 100 j (by norm_num) hj
  have hVpos : ∀ j, j < 100 → 0 < V j := by
    intro j hj
    have := gamma_p_inv_pos (1 / 5) (gamma_p_inv (1 / 5)) _ (hlevel j hj).1
      (hinv _ (hlevel j hj))
    simp only [hV]
    positivity
  have hVmono : ∀ j k, j < k → k < 100 → V j < V k := by
    intro j k hjk hk
    have hg := gamma_p_inv_strictMonoOn (1 / 5) (by norm_num) _ hinv
    have := hg (hlevel j (by omega)) (hlevel k hk)
      (quantileLevel_strictMono (K := ℝ) 100 (by norm_num) hjk)
    simp only [hV]
    exact div_lt_div_of_pos_right this (by norm_num)
  have hVle : ∀ j, j ≤ 51 → V j ≤ 2 / 25 := by
    intro j hj
    have := gamma_p_inv_le_of_level gamma_p_inv hinv j hj
    simp only [hV]
    rw [div_le_iff₀ (by norm_num)]
    linarith
  -- the arrays
  have hv : ∀ j, j < 100 →
      (createStationaryDistributionMesher m 1.0 0.4 2.0 100)[j]? = some (V j) := by
    intro j hj
    rw [createStationaryDistributionMesher_get _ _ _ _ _ _ hj,
      invStationaryDistributionFct_test]
  have hq : ∀ j, j < 100 →
      (List.zipWith (fun vi pi => m.pow vi (1.0 - 2 * 1.0 * 0.4 / (2.0 * 2.0)) * pi)
        (createStationaryDistributionMesher m 1.0 0.4 2.0 100)
        ((createStationaryDistributionMesher m 1.0 0.4 2.0 100).map
          (stationaryProbabilityFct m 1.0 0.4 2.0)))[j]?
        = some ((1 / 2 : ℝ) ^ (1 / 5 : ℝ) / Real.Gamma (1 / 5) * Real.exp (-(V j / 2))) := by
    intro j hj
    rw [zipWith_map_self, List.getElem?_map, hv j hj, Option.map_some',
      ← transformedDensity_test logValue gamma_p_inv hlog (V j) (hVpos j hj)]
    rfl
  have hQ0 : 0 ≤ (1 / 2 : ℝ) ^ (1 / 5 : ℝ) / Real.Gamma (1 / 5) :=
    div_nonneg (Real.rpow_nonneg (by norm_num) _)
      (Real.Gamma_pos_of_pos (by norm_num)).le
  refine ⟨_, ?_, flow_bound_of_points _ (V i) (V (i + 1)) (V (i + 2)) hQ0
    density_constant_le (hVpos i (by omega)) (hVmono _ _ (by omega) (by omega))
    (hVmono _ _ (by omega) (by omega)) (hVle _ (by omega))⟩
  unfold testTransformedZeroFlowBC
  simp only []
  rw [List.getElem?_map, List.getElem?_range (by omega), Option.map_some']
  unfold zeroFlowBCFlow
  rw [hv i (by omega), hv (i + 1) (by omega), hv (i + 2) (by omega), hq i (by omega),
    hq (i + 1) (by omega), hq (i + 2) (by omega)]
  rfl

end ZeroFlowTheorems
section InverseExists

open MeasureTheory Filter Topology

theorem gamma_p_eq_intervalIntegral (a x : ℝ) (hx : 0 ≤ x) :
    gamma_p a x = (∫ t in (0 : ℝ)..x, t ^ (a - 1) * Real.exp (-t)) / Real.Gamma a := by
  unfold gamma_p
  rw [intervalIntegral.integral_of_le hx]

theorem gamma_p_surjOn (a : ℝ) (ha : 0 < a) (q : ℝ) (hq : q ∈ Set.Ioo (0 : ℝ) 1) :
    ∃ x, gamma_p a x = q := by
  have hG : 0 < Real.Gamma a := Real.Gamma_pos_of_pos ha
  have hint : ∀ c d : ℝ, IntervalIntegrable (fun t : ℝ => t ^ (a - 1) * Real.exp (-t))
      volume c d := fun c d =>
    (intervalIntegral.intervalIntegrable_rpow' (by linarith)).mul_continuousOn
      (Real.continuous_exp.comp continuous_neg).continuousOn
  have hcont : Continuous
      (fun x : ℝ => (∫ t in (0 : ℝ)..x, t ^ (a - 1) * Real.exp (-t)) / Real.Gamma a) :=
    (intervalIntegral.continuous_primitive hint 0).div_const _
  have hIoi : IntegrableOn (fun t : ℝ => t ^ (a - 1) * Real.exp (-t)) (Set.Ioi 0) := by
    refine (Real.GammaIntegral_convergent ha).congr_fun (fun t _ => ?_) measurableSet_Ioi
    simp only [mul_comm]
  have hlim : Tendsto
      (fun x : ℝ => (∫ t in (0 : ℝ)..x, t ^ (a - 1) * Real.exp (-t)) / Real.Gamma a)
      atTop (𝓝 1) := by
    have h1 := intervalIntegral_tendsto_integral_Ioi 0 hIoi tendsto_id
    have h2 : ∫ t in Set.Ioi (0 : ℝ), t ^ (a - 1) * Real.exp (-t) = Real.Gamma a := by
      rw [Real.Gamma_eq_integral ha]
      congr 1
      funext t
      ring
    rw [h2] at h1
    have h3 := h1.div_const (Real.Gamma a)
    rw [div_self hG.ne'] at h3
    exact h3
  obtain ⟨X, hXq, hX0⟩ :=
    ((hlim.eventually (lt_mem_nhds hq.2)).and (eventually_ge_atTop (0 : ℝ))).exists
  have hivt := intermediate_value_Icc hX0 hcont.continuousOn
  have hmem : q ∈ Set.Icc
      ((∫ t in (0 : ℝ)..0, t ^ (a - 1) * Real.exp (-t)) / Real.Gamma a)
      ((∫ t in (0 : ℝ)..X, t ^ (a - 1) * Real.exp (-t)) / Real.Gamma a) := by
    constructor
    · simp only [intervalIntegral.integral_same, zero_div]
      exact hq.1.le
    · exact hXq.le
  obtain ⟨x, hx, hxq⟩ := hivt hmem
  exact ⟨x, by rw [gamma_p_eq_intervalIntegral a x hx.1]; exact hxq⟩

theorem gamma_p_gammaPInverse (a : ℝ) (ha : 0 < a) (q : ℝ) (hq : q ∈ Set.Ioo (0 : ℝ) 1) :
    gamma_p a (gammaPInverse a q) = q := by
  unfold gammaPInverse
  exact Classical.epsilon_spec (gamma_p_surjOn a ha q hq)

/-- C2 (witness): the first iteration, with the logarithm of the Gamma function
and an inverse of `gamma_p`. -/
theorem testTransformedZeroFlowBC_within_tolerance_witness :
    ∃ flow, (testTransformedZeroFlowBC
        (realFunctions (fun x => Real.log (Real.Gamma x)) gammaPInverse))[0]?
        = some (some flow) ∧ |flow| ≤ zeroFlowBCTolerance :=
  testTransformedZeroFlowBC_within_tolerance (fun x => Real.log (Real.Gamma x))
    gammaPInverse rfl (fun q hq => gamma_p_gammaPInverse (1 / 5) (by norm_num) q hq)
    0 (by norm_num)

end InverseExists

section TransformationChoiceTheorems

/-- C11: the tests choose `Plain` only under the Feller condition
`2*kappa*theta >= sigma^2`.  In `testSquareRootEvolveWithStationaryDensity`
(`kappa = 2.5`, `theta = 0.2`), for every `sigma > 0`, the choice `Plain`
(`sigma < 0.75`) implies the Feller condition, and a violated Feller condition
implies the choice `Power`.  In `testHestonFokkerPlanckFwdEquation` exactly one
test case is `Plain`; it has `kappa = 1`, `theta = 0.05`, `sigma^2 = 0.005` and
satisfies the Feller condition, and every other test case (`Power` or `Log`)
has `sigma^2 = 0.2` and violates it. -/
theorem plain_only_under_feller (logValue : ℝ → ℝ) (gamma_p_inv : ℝ → ℝ → ℝ) :
    (∀ sigma : ℝ, 0 < sigma →
      (stationaryDensityTransform sigma = TransformationType.Plain →
        FellerCondition stationaryDensityKappa stationaryDensityTheta sigma) ∧
      (¬ FellerCondition stationaryDensityKappa stationaryDensityTheta sigma →
        stationaryDensityTransform sigma = TransformationType.Power)) ∧
    ((testCases (realFunctions logValue gamma_p_inv)).filter
        (fun tc => decide (tc.trafoType = TransformationType.Plain))).length = 1 ∧
    (∀ tc ∈ testCases (realFunctions logValue gamma_p_inv),
      (tc.trafoType = TransformationType.Plain →
        tc.kappa = 1 ∧ tc.theta = 0.05 ∧ tc.sigma ^ 2 = 0.005 ∧
          FellerCondition tc.kappa tc.theta tc.sigma) ∧
      (tc.trafoType ≠ TransformationType.Plain →
        tc.sigma ^ 2 = 0.2 ∧ ¬ FellerCondition tc.kappa tc.theta tc.sigma)) := by
  have hs1 : Real.sqrt 0.2 ^ 2 = 0.2 := Real.sq_sqrt (by norm_num)
  have hs2 : Real.sqrt 0.005 ^ 2 = 0.005 := Real.sq_sqrt (by norm_num)
  have h1 : (2 * 2.5 * 0.2 : ℝ) = 1 := by norm_num
  refine ⟨?_, ?_, ?_⟩
  · intro sigma hsigma
    unfold stationaryDensityTransform FellerCondition stationaryDensityKappa
      stationaryDensityTheta
    constructor
    · intro h
      have hlt : sigma < 0.75 := by
        by_contra hcon
        rw [if_neg hcon] at h
        cases h
      have hlt' : sigma < 3 / 4 := by norm_num at hlt; exact hlt
      rw [h1]
      nlinarith
    · intro h
      have hge : ¬ sigma < 0.75 := by
        intro hlt
        apply h
        have hlt' : sigma < 3 / 4 := by norm_num at hlt; exact hlt
        rw [h1]
        nlinarith
      rw [if_neg hge]
  · simp [testCases]
  · intro tc htc
    simp only [testCases, List.mem_cons, List.mem_singleton, List.not_mem_nil, or_false] at htc
    rcases htc with h | h | h | h <;> subst h <;>
      simp only [realFunctions, FellerCondition, hs1, hs2] <;> norm_num <;> decide

end TransformationChoiceTheorems

section SigmaSweepTheorems

variable {K : Type} [LinearOrderedField K]

theorem sigmaSweepFrom_step (fuel : ℕ) (sigma : K) (h : sigma < 2.01) :
    sigmaSweepFrom (fuel + 1) sigma =
      (sigmaSweepFrom fuel (sigma + 0.1)).map (fun l => sigma :: l) := by
  rw [sigmaSweepFrom, if_pos h]

theorem sigmaSweepFrom_stop (fuel : ℕ) (sigma : K) (h : ¬ sigma < 2.01) :
    sigmaSweepFrom fuel sigma = some [] := by
  cases fuel with
  | zero => rw [sigmaSweepFrom, if_neg h]
  | succ n => rw [sigmaSweepFrom, if_neg h]

/-- C15: the sweep `for (sigma = 0.2; sigma < 2.01; sigma += 0.1)` terminates:
with fuel for 19 iterations or more it returns, and in exact arithmetic the
body has run for exactly the 19 values `0.2, 0.3, ..., 2.0`, in this order. -/
theorem sigmaSweep_visits (extra : ℕ) :
    (sigmaSweep (19 + extra) : Option (List K)) =
      some [0.2, 0.3, 0.4, 0.5, 0.6, 0.7, 0.8, 0.9, 1.0, 1.1, 1.2, 1.3, 1.4, 1.5, 1.6,
        1.7, 1.8, 1.9, 2.0] := by
  have e : 19 + extra = extra + 1 + 1 + 1 + 1 + 1 + 1 + 1 + 1 + 1 + 1 + 1 + 1 + 1 + 1 + 1
      + 1 + 1 + 1 + 1 := by omega
  unfold sigmaSweep
  rw [e]
  rw [sigmaSweepFrom_step _ _ (by norm_num), sigmaSweepFrom_step _ _ (by norm_num),
    sigmaSweepFrom_step _ _ (by norm_num), sigmaSweepFrom_step _ _ (by norm_num),
    sigmaSweepFrom_step _ _ (by norm_num), sigmaSweepFrom_step _ _ (by norm_num),
    sigmaSweepFrom_step _ _ (by norm_num), sigmaSweepFrom_step _ _ (by norm_num),
    sigmaSweepFrom_step _ _ (by norm_num), sigmaSweepFrom_step _ _ (by norm_num),
    sigmaSweepFrom_step _ _ (by norm_num), sigmaSweepFrom_step _ _ (by norm_num),
    sigmaSweepFrom_step _ _ (by norm_num), sigmaSweepFrom_step _ _ (by norm_num),
    sigmaSweepFrom_step _ _ (by norm_num), sigmaSweepFrom_step _ _ (by norm_num),
    sigmaSweepFrom_step _ _ (by norm_num), sigmaSweepFrom_step _ _ (by norm_num),
    sigmaSweepFrom_step _ _ (by norm_num), sigmaSweepFrom_stop _ _ (by norm_num)]
  simp only [Option.map_some']
  norm_num

end SigmaSweepTheorems

section LocalVolAccessTheorems

variable {K : Type} [LinearOrderedField K]

/-- C16: `safeLocalVolAccess` returns the constant `0.3` for every surface,
time, spot and override; it does not raise, and it makes no call of
`localVol->localVol`: neither the surface nor the override has any effect on
its value. -/
theorem safeLocalVolAccess_constant (localVol : K → K → Except String K)
    (t spot override : K) :
    safeLocalVolAccess localVol t spot override = ⟨Except.ok 0.3, []⟩ ∧
      ∀ (localVol' : K → K → Except String K) (override' : K),
        safeLocalVolAccess localVol' t spot override'
          = safeLocalVolAccess localVol t spot override :=
  ⟨rfl, fun _ _ => rfl⟩

end LocalVolAccessTheorems

section TimeLoopTheorems

variable {K : Type} [LinearOrderedField K]

theorem timeLoop_terminates_of_lt (c : Collaborators K) (dt bound : K) (n : ℕ) : ∀ (fuel : ℕ) (t : K) (p : List K), n ≤ fuel → bound < t + n * dt →
      ∃ q, (timeLoop c dt bound fuel t p).result = Except.ok q := by
  induction n with
  | zero =>
    intro fuel t p _ hlt
    have hnot : ¬ t ≤ bound := by
      simp only [Nat.cast_zero, zero_mul, add_zero] at hlt
      exact not_le.mpr hlt
    cases fuel with
    | zero => exact ⟨p, by rw [timeLoop, if_neg hnot]; rfl⟩
    | succ f => exact ⟨p, by rw [timeLoop, if_neg hnot]; rfl⟩
  | succ n ih =>
    intro fuel t p hfuel hlt
    cases fuel with
    | zero => omega
    | succ f =>
      by_cases hle : t ≤ bound
      · have hlt' : bound < t + dt + n * dt := by
          have : t + (n + 1 : ℕ) * dt = t + dt + n * dt := by push_cast; ring
          rw [← this]; exact hlt
        obtain ⟨q, hq⟩ := ih f (t + dt) (c.evolverStep dt p t) (by omega) hlt'
        refine ⟨q, ?_⟩
        rw [timeLoop, if_pos hle, log_bind]
        exact hq
      · exact ⟨p, by rw [timeLoop, if_neg hle]; rfl⟩

theorem timeLoop_exact (c : Collaborators K) (dt bound : K) (tGrid : ℕ)
    (hlow : (tGrid : K) * dt ≤ bound) (hup : bound < (tGrid : K) * dt + dt) (hdt : 0 < dt)
    (p : List K) (r : ℕ) : ∀ (k extra : ℕ), k + r = tGrid →
      timeLoop c dt bound (r + extra) ((k + 1 : ℕ) * dt) (evolvedDensity c dt p k)
        = ⟨(List.range r).map (fun i => Event.step ((k + i + 1 : ℕ) * dt)),
            Except.ok (evolvedDensity c dt p tGrid)⟩ := by
  induction r with
  | zero =>
    intro k extra hk
    simp only [add_zero] at hk
    subst hk
    have hnot : ¬ ((k + 1 : ℕ) : K) * dt ≤ bound := by
      push_cast
      rw [not_le, add_mul, one_mul]
      exact hup
    rw [Nat.zero_add]
    cases extra with
    | zero => rw [timeLoop, if_neg hnot]; rfl
    | succ f => rw [timeLoop, if_neg hnot]; rfl
  | succ r ih =>
    intro k extra hk
    have hle : ((k + 1 : ℕ) : K) * dt ≤ bound := by
      refine le_trans ?_ hlow
      apply mul_le_mul_of_nonneg_right _ hdt.le
      exact_mod_cast (by omega : k + 1 ≤ tGrid)
    have e : r + 1 + extra = (r + extra) + 1 := by omega
    have et : ((k + 1 : ℕ) : K) * dt + dt = ((k + 1 + 1 : ℕ) : K) * dt := by
      push_cast; ring
    rw [e, timeLoop, if_pos hle, log_bind, et]
    have hev : c.evolverStep dt (evolvedDensity c dt p k) (((k + 1 : ℕ) : K) * dt)
        = evolvedDensity c dt p (k + 1) := rfl
    rw [hev, ih (k + 1) extra (by omega)]
    simp only [List.range_succ_eq_map, List.map_cons, List.map_map]
    congr 1
    refine congrArg₂ _ (by simp) (List.map_congr_left ?_)
    intro i _
    simp only [Function.comp, Nat.succ_eq_add_one]
    rw [show k + 1 + i + 1 = k + (i + 1) + 1 by omega]

/-- C19: the time loop of `fokkerPlanckPrice1D` with `dt = maturity/tGrid`
terminates for every `maturity > 0` and `tGrid ≥ 1` (some amount of fuel, and
every larger one, lets it return); and when `0 < 20*QL_EPSILON < dt`, in exact
arithmetic, it calls `evolver.step` exactly `tGrid` times, at the times
`dt, 2*dt, ..., tGrid*dt`, where `tGrid*dt = maturity`, and returns the density
after these steps. -/
theorem timeLoop_steps [Archimedean K] (c : Collaborators K) (maturity : K) (tGrid : ℕ)
    (p : List K) (hm : 0 < maturity) (hg : 1 ≤ tGrid) :
    (∃ fuel, ∀ fuel', fuel ≤ fuel' → ∃ q,
      (timeLoop c (maturity / (tGrid : K)) (maturity + 20 * c.epsilon) fuel'
        (maturity / (tGrid : K)) p).result = Except.ok q) ∧
    (0 < 20 * c.epsilon → 20 * c.epsilon < maturity / (tGrid : K) →
      (tGrid : K) * (maturity / (tGrid : K)) = maturity ∧
      ∀ extra, timeLoop c (maturity / (tGrid : K)) (maturity + 20 * c.epsilon)
          (tGrid + extra) (maturity / (tGrid : K)) p
        = ⟨(List.range tGrid).map
              (fun i => Event.step (((i + 1 : ℕ) : K) * (maturity / (tGrid : K)))),
            Except.ok (evolvedDensity c (maturity / (tGrid : K)) p tGrid)⟩) := by
  have hgK : (0 : K) < tGrid := by exact_mod_cast hg
  have hdt : 0 < maturity / (tGrid : K) := div_pos hm hgK
  have hmul : (tGrid : K) * (maturity / (tGrid : K)) = maturity := by
    field_simp
  constructor
  · obtain ⟨n, hn⟩ := Archimedean.arch (maturity + 20 * c.epsilon) hdt
    refine ⟨n + 1, fun fuel' hfuel => ?_⟩
    refine timeLoop_terminates_of_lt c _ _ (n + 1) fuel' _ p hfuel ?_
    rw [nsmul_eq_mul] at hn
    push_cast
    linarith
  · intro heps hlt
    refine ⟨hmul, fun extra => ?_⟩
    have h := timeLoop_exact c (maturity / (tGrid : K)) (maturity + 20 * c.epsilon) tGrid
      (by rw [hmul]; linarith) (by rw [hmul]; linarith) hdt p tGrid 0 extra (by omega)
    simp only [Nat.zero_add, Nat.cast_one, one_mul] at h
    exact h

/-- C19 (witness): maturity `1` in `4` steps on `ℚ`, with `QL_EPSILON = 2^(-52)`
and an evolver that leaves the density as it is. -/
theorem timeLoop_steps_witness :
    timeLoop (⟨fun _ _ => false, fun _ p _ => p, fun y => y, fun _ _ => 0, 1 / 2 ^ 52⟩ :
        Collaborators ℚ) (1 / ((4 : ℕ) : ℚ)) (1 + 20 * (1 / 2 ^ 52)) (4 + 0)
        (1 / ((4 : ℕ) : ℚ)) [0, 1, 0]
      = ⟨(List.range 4).map (fun i => Event.step (((i + 1 : ℕ) : ℚ) * (1 / ((4 : ℕ) : ℚ)))),
          Except.ok (evolvedDensity (⟨fun _ _ => false, fun _ p _ => p, fun y => y, fun _ _ => 0,
            1 / 2 ^ 52⟩ : Collaborators ℚ) (1 / ((4 : ℕ) : ℚ)) [0, 1, 0] 4)⟩ :=
  ((timeLoop_steps (⟨fun _ _ => false, fun _ p _ => p, fun y => y, fun _ _ => 0,
      1 / 2 ^ 52⟩ : Collaborators ℚ) 1 4 [0, 1, 0] (by norm_num) (by norm_num)).2
    (by norm_num) (by norm_num)).2 0

end TimeLoopTheorems

section ContinuousFlux

open Filter Topology

theorem transformedDensity_hasDerivAt (logValue : ℝ → ℝ) (gamma_p_inv : ℝ → ℝ → ℝ)
    (kappa theta sigma v : ℝ) (hv : 0 < v) :
    HasDerivAt (transformedDensity (realFunctions logValue gamma_p_inv) kappa theta sigma)
      (-(2 * kappa * theta / (sigma * sigma) / theta)
        * transformedDensity (realFunctions logValue gamma_p_inv) kappa theta sigma v) v := by
  set a := 2 * kappa * theta / (sigma * sigma) with ha
  set b := a / theta with hb
  have hclosed : HasDerivAt (fun w : ℝ => b ^ a * Real.exp (-b * w - logValue a))
      (-b * (b ^ a * Real.exp (-b * v - logValue a))) v := by
    have h1 : HasDerivAt (fun w : ℝ => -b * w - logValue a) (-b) v := by
      have := ((hasDerivAt_id v).const_mul (-b)).sub_const (logValue a)
      simpa using this
    have h2 := (h1.exp).const_mul (b ^ a)
    convert h2 using 1
    ring
  have hev : (transformedDensity (realFunctions logValue gamma_p_inv) kappa theta sigma)
      =ᶠ[𝓝 v] fun w : ℝ => b ^ a * Real.exp (-b * w - logValue a) := by
    filter_upwards [Ioi_mem_nhds hv] with w hw
    exact transformedDensity_eq logValue gamma_p_inv kappa theta sigma w hw
  rw [transformedDensity_eq logValue gamma_p_inv kappa theta sigma v hv]
  exact hclosed.congr_of_eventuallyEq hev

/-- C20: for `kappa, theta, sigma, v > 0` the transformed density
`q(v) = v^alpha * stationaryProbabilityFct(kappa, theta, sigma, v)`,
`alpha = 1 - 2*kappa*theta/sigma^2`, is differentiable at `v`, and the
continuous flux `0.5*sigma^2*v*q'(v) + kappa*v*q(v)` is zero. -/
theorem continuous_flux_vanishes (logValue : ℝ → ℝ) (gamma_p_inv : ℝ → ℝ → ℝ)
    (kappa theta sigma v : ℝ) (_hk : 0 < kappa) (hth : 0 < theta) (hs : 0 < sigma)
    (hv : 0 < v) :
    DifferentiableAt ℝ
        (transformedDensity (realFunctions logValue gamma_p_inv) kappa theta sigma) v ∧
      0.5 * sigma ^ 2 * v
          * deriv (transformedDensity (realFunctions logValue gamma_p_inv) kappa theta sigma) v
        + kappa * v
          * transformedDensity (realFunctions logValue gamma_p_inv) kappa theta sigma v = 0 := by
  have hd := transformedDensity_hasDerivAt logValue gamma_p_inv kappa theta sigma v hv
  refine ⟨hd.differentiableAt, ?_⟩
  rw [hd.deriv]
  field_simp
  ring

/-- C20 (witness): `kappa = theta = sigma = v = 1`. -/
theorem continuous_flux_vanishes_witness :
    0.5 * (1 : ℝ) ^ 2 * 1
        * deriv (transformedDensity (realFunctions (fun _ => 0) (fun _ q => q)) 1 1 1) 1
      + 1 * 1 * transformedDensity (realFunctions (fun _ => 0) (fun _ q => q)) 1 1 1 1 = 0 :=
  (continuous_flux_vanishes (fun _ => 0) (fun _ q => q) 1 1 1 1 (by norm_num) (by norm_num)
    (by norm_num) (by norm_num)).2

end ContinuousFlux

section IkonenToivanenTheorems

variable {K : Type} [LinearOrderedField K]

/-- C12 (as amended): every pass of `testFdmHestonIkonenToivanen` prices the
American put with strike `10` and exercise date 26 June 2004, 90 days after the
evaluation date 28 March 2004, under `r = 0.10`, `q = 0`, `v0 = 0.0625`,
`kappa = 5`, `theta = 0.16`, `sigma = 0.9`, `rho = 0.1`, on the grid
`(100, 400)`; the spot of pass `i` is the `i`-th element of
`{8, 9, 10, 11, 12}`, its expected value the `i`-th element of
`{2.00000, 1.10763, 0.520038, 0.213681, 0.082046}`, and no error is reported
exactly when the engine's value is within `0.001` of the expected value. -/
theorem ikonenToivanen_passes
    (npv : VanillaContract K → HestonProcessData K → ℕ → ℕ → K) :
    (testFdmHestonIkonenToivanen npv).map (fun b => b.process.s0) = [8, 9, 10, 11, 12] ∧
    (testFdmHestonIkonenToivanen npv).map (fun b => b.expected)
      = [2.00000, 1.10763, 0.520038, 0.213681, 0.082046] ∧
    ∀ b ∈ testFdmHestonIkonenToivanen npv,
      b.contract.type = OptionType.Put ∧ b.contract.exercise = ExerciseStyle.American ∧
      b.contract.strike = 10 ∧
      Date.daysTo b.contract.evaluationDate b.contract.exerciseDate = 90 ∧
      b.process.r = 0.10 ∧ b.process.q = 0 ∧ b.process.kappa = 5 ∧ b.process.theta = 0.16 ∧
      b.process.sigma = 0.9 ∧ b.process.rho = 0.1 ∧ b.process.v0 = 0.0625 ∧
      b.calculated = npv b.contract b.process 100 400 ∧
      (b.errorReported = false ↔ |b.calculated - b.expected| ≤ 0.001) := by
  refine ⟨by simp [testFdmHestonIkonenToivanen], by simp [testFdmHestonIkonenToivanen], ?_⟩
  intro b hb
  simp only [testFdmHestonIkonenToivanen, List.zipWith_cons_cons, List.zipWith_nil_right,
    List.mem_cons, List.mem_singleton, List.not_mem_nil, or_false] at hb
  have hdays : Date.daysTo ⟨28, 3, 2004⟩ ⟨26, 6, 2004⟩ = 90 := by decide
  rcases hb with h | h | h | h | h <;> subst h <;>
    simp only [decide_eq_false_iff_not, not_lt, gt_iff_lt, hdays] <;> norm_num

/-- C12 (counterexample): the first pass, whose entry of `strikes` is `8`,
prices the put with strike `10`: the entry `8` is the spot. -/
theorem ikonenToivanen_strike_counterexample :
    ((testFdmHestonIkonenToivanen (fun _ _ _ _ => (0 : ℚ))).map
        (fun b => (b.contract.strike, b.process.s0)))[0]? = some (10, 8) ∧ (10 : ℚ) ≠ 8 := by
  refine ⟨?_, by norm_num⟩
  simp [testFdmHestonIkonenToivanen]

end IkonenToivanenTheorems

section DegenerateGridTheorems

theorem upper_bound_degenerateGrid : upper_bound (degenerateGrid : List ℚ) 3 = 4 := by
  simp [upper_bound, degenerateGrid, List.findIdx_cons]
  norm_num

theorem relativeCloseEnough_degenerate :
    relativeCloseEnough (1 / 2 ^ 52 : ℚ) (3 + 1 / 2 ^ 50) 3 = true := by
  unfold relativeCloseEnough
  rw [if_neg (by norm_num), if_neg (by norm_num), Bool.or_eq_true, decide_eq_true_iff,
    decide_eq_true_iff]
  right
  norm_num [abs_of_pos]

theorem seedDensity_degenerateGrid :
    seedDensity (relativeCloseEnough (1 / 2 ^ 52)) (degenerateGrid : List ℚ) 3
      = ⟨[Event.read 4, Event.read 5], Except.error Failure.outOfRange⟩ := by
  have r4 : readGrid (degenerateGrid : List ℚ) ((4 : ℕ) : ℤ)
      = ⟨[Event.read 4], Except.ok (3 + 1 / 2 ^ 50)⟩ :=
    readGrid_of_get _ 4 _ rfl
  have r5 : readGrid (degenerateGrid : List ℚ) (((4 : ℕ) : ℤ) + 1)
      = ⟨[Event.read 5], Except.error Failure.outOfRange⟩ := rfl
  unfold seedDensity
  simp only [upper_bound_degenerateGrid]
  rw [r4, bind_ok, if_pos relativeCloseEnough_degenerate, r5]
  rfl

theorem sufficientMesher_degenerateGrid :
    sufficientMesher (degenerateGrid : List ℚ) 3
      = ⟨[Event.read 1, Event.read 3], Except.ok true⟩ := by
  rw [sufficientMesher_of_long (degenerateGrid : List ℚ) 3 1 3 (by decide) rfl rfl,
    if_pos (by norm_num)]
  have hlen : (((degenerateGrid : List ℚ).length : ℤ) - 2) = 3 := by
    simp [degenerateGrid]
  rw [hlen]
  simp

/-- C18 (the code at the failing input): on the strictly increasing grid
`[0, 1, 2, 3, 3 + 2^(-50)]` with `x0 = 3` the requirement of
`fokkerPlanckPrice1D` holds (`n = 5 > 3`, `x[1] ≤ x0 ≤ x[3]`), `upper_bound`
returns the last position `4`, the comparison `close_enough(x[4], x0)` holds,
and the seeding then reads `x[5]`, outside `[0, 5)`. -/
theorem seedDensity_reads_past_the_end :
    (degenerateGrid : List ℚ).Sorted (· < ·) ∧ (degenerateGrid : List ℚ).length = 5 ∧
    (sufficientMesher (degenerateGrid : List ℚ) 3).result = Except.ok true ∧
    upper_bound (degenerateGrid : List ℚ) 3 = 4 ∧
    (seedDensity (relativeCloseEnough (1 / 2 ^ 52)) (degenerateGrid : List ℚ) 3).trace
      = [Event.read 4, Event.read 5] := by
  refine ⟨?_, rfl, ?_, upper_bound_degenerateGrid, ?_⟩
  · simp only [degenerateGrid, List.Sorted, List.pairwise_cons, List.mem_cons,
      List.mem_singleton, List.not_mem_nil]
    norm_num
  · rw [sufficientMesher_degenerateGrid]
  · rw [seedDensity_degenerateGrid]

/-- C17 (the code at the failing input): on the strictly increasing grid
`[0, 1, 2, 3, 3 + 2^(-50)]` with `x0 = 3 = x[n-2]`, whatever the evolver, the
payoff and the integrator, `fokkerPlanckPrice1D` passes its requirement and
then ends in the read of `x[5]`: no entry of `p` has been written, so that no
density of unit mass is seeded. -/
theorem fokkerPlanckPrice1D_seeds_no_density (evolverStep : ℚ → List ℚ → ℚ → List ℚ)
    (payoffOfExp : ℚ → ℚ) (integrate : List ℚ → List ℚ → ℚ) (maturity : ℚ)
    (tGrid fuel : ℕ) :
    fokkerPlanckPrice1D
        ⟨relativeCloseEnough (1 / 2 ^ 52), evolverStep, payoffOfExp, integrate, 1 / 2 ^ 52⟩
        degenerateGrid 3 maturity tGrid fuel
      = ⟨[Event.read 1, Event.read 3, Event.read 4, Event.read 5],
          Except.error Failure.outOfRange⟩ := by
  unfold fokkerPlanckPrice1D
  rw [sufficientMesher_degenerateGrid, bind_ok]
  simp only [seedDensity_degenerateGrid]
  rfl

end DegenerateGridTheorems

section SeedingLemmas

variable {K : Type} [LinearOrderedField K]

theorem sorted_getElem_lt (x : List K) (hs : x.Sorted (· < ·)) (i j : ℕ) (hij : i < j)
    (hj : j < x.length) : x[i] < x[j] :=
  List.pairwise_iff_getElem.mp hs i j (by omega) hj hij

theorem upper_bound_spec (x : List K) (x0 : K) (hs : x.Sorted (· < ·)) (hn : 3 < x.length)
    (h1 : x[1] ≤ x0) (h2 : x0 < x[x.length - 2]) :
    ∃ hu : upper_bound x x0 + 1 < x.length, 2 ≤ upper_bound x x0 ∧
      x0 < x[upper_bound x x0] ∧ x[upper_bound x x0 - 1] ≤ x0 := by
  have hex : ∃ y ∈ x, decide (x0 < y) = true :=
    ⟨x[x.length - 2], List.getElem_mem _, by simpa using h2⟩
  have hlt : upper_bound x x0 < x.length := List.findIdx_lt_length_of_exists hex
  have hget : x0 < x[upper_bound x x0] := by
    have := List.findIdx_getElem (w := hlt)
    simpa using this
  have hbefore : ∀ j (hj : j < upper_bound x x0), x[j] ≤ x0 := by
    intro j hj
    have := List.not_of_lt_findIdx hj
    simpa using this
  have hge2 : 2 ≤ upper_bound x x0 := by
    by_contra hcon
    have hu1 : upper_bound x x0 ≤ 1 := by omega
    have hle : x[upper_bound x x0] ≤ x[1] := by
      rcases Nat.lt_or_eq_of_le hu1 with h | h
      · exact (sorted_getElem_lt x hs _ 1 h (by omega)).le
      · simp only [h]; exact le_refl _
    exact absurd (lt_of_lt_of_le hget hle) (not_lt.mpr h1)
  have hle2 : upper_bound x x0 ≤ x.length - 2 := by
    by_contra hcon
    have := hbefore (x.length - 2) (by omega)
    exact absurd h2 (not_lt.mpr this)
  exact ⟨by omega, hge2, hget, hbefore _ (by omega)⟩

end SeedingLemmas

section SeedingEval

variable {K : Type} [LinearOrderedField K]

theorem seedDensity_eval (ce : K → K → Bool) (x : List K) (x0 : K) (u : ℕ) (a b c d : K)
    (hu : upper_bound x x0 = u) (hu2 : 2 ≤ u) (hlen : u + 1 < x.length)
    (ha : x[u - 2]? = some a) (hb : x[u - 1]? = some b) (hc : x[u]? = some c)
    (hd : x[u + 1]? = some d) :
    seedDensity ce x x0 =
      if ce c x0 then
        ⟨[Event.read u, Event.read ((u : ℤ) + 1), Event.read ((u : ℤ) - 1), Event.write u],
          Except.ok ((List.replicate x.length 0).set u (1 / ((d - b) / 2)))⟩
      else if ce b x0 then
        ⟨[Event.read u, Event.read ((u : ℤ) - 1), Event.read ((u : ℤ) - 1 + 1),
            Event.read ((u : ℤ) - 1 - 1), Event.write ((u : ℤ) - 1)],
          Except.ok ((List.replicate x.length 0).set (u - 1) (1 / ((c - a) / 2)))⟩
      else
        ⟨[Event.read u, Event.read ((u : ℤ) - 1), Event.read ((u : ℤ) - 1 + 1),
            Event.read ((u : ℤ) - 1 - 1), Event.read ((u : ℤ) + 1), Event.read ((u : ℤ) - 1),
            Event.write ((u : ℤ) - 1), Event.write u],
          Except.ok (((List.replicate x.length 0).set (u - 1)
            ((c - x0) / (c - b) / ((c - a) / 2))).set u
              ((x0 - b) / (c - b) / ((d - b) / 2)))⟩ := by
  have r_u : readGrid x (u : ℤ) = ⟨[Event.read u], Except.ok c⟩ :=
    readGrid_of_int x _ u c rfl hc
  have r_u1 : readGrid x ((u : ℤ) + 1) = ⟨[Event.read ((u : ℤ) + 1)], Except.ok d⟩ :=
    readGrid_of_int x _ (u + 1) d (by push_cast; rfl) hd
  have r_um : readGrid x ((u : ℤ) - 1) = ⟨[Event.read ((u : ℤ) - 1)], Except.ok b⟩ :=
    readGrid_of_int x _ (u - 1) b (by omega) hb
  have r_l1 : readGrid x ((u : ℤ) - 1 + 1) = ⟨[Event.read ((u : ℤ) - 1 + 1)], Except.ok c⟩ :=
    readGrid_of_int x _ u c (by omega) hc
  have r_lm : readGrid x ((u : ℤ) - 1 - 1) = ⟨[Event.read ((u : ℤ) - 1 - 1)], Except.ok a⟩ :=
    readGrid_of_int x _ (u - 2) a (by omega) ha
  have w_u : ∀ (p : List K) (v : K), p.length = x.length →
      writeDensity p (u : ℤ) v = ⟨[Event.write u], Except.ok (p.set u v)⟩ :=
    fun p v hp => writeDensity_of_int p _ u v rfl (by omega)
  have w_l : ∀ (p : List K) (v : K), p.length = x.length →
      writeDensity p ((u : ℤ) - 1) v = ⟨[Event.write ((u : ℤ) - 1)], Except.ok (p.set (u - 1) v)⟩ :=
    fun p v hp => writeDensity_of_int p _ (u - 1) v (by omega) (by omega)
  have hl0 := List.length_replicate x.length (0 : K)
  unfold seedDensity
  simp only [hu]
  by_cases h1 : ce c x0 = true
  · simp only [r_u, r_u1, r_um, bind_ok, if_pos h1, w_u _ _ hl0, List.singleton_append,
      List.cons_append, List.nil_append]
  · by_cases h2 : ce b x0 = true
    · simp only [r_u, r_um, r_l1, r_lm, bind_ok, if_neg h1, if_pos h2, w_l _ _ hl0,
        List.singleton_append, List.cons_append, List.nil_append]
    · have hl1 : ((List.replicate x.length (0 : K)).set (u - 1)
          ((c - x0) / (c - b) / ((c - a) / 2))).length = x.length := by
        rw [List.length_set, List.length_replicate]
      simp only [r_u, r_u1, r_um, r_l1, r_lm, bind_ok, if_neg h1, if_neg h2, w_l _ _ hl0,
        w_u _ _ hl1, List.singleton_append, List.cons_append, List.nil_append]

end SeedingEval

section SeedingMass

variable {K : Type} [LinearOrderedField K]

theorem getD_set_replicate (n i j : ℕ) (v : K) (hi : i < n) :
    ((List.replicate n (0 : K)).set i v).getD j 0 = if j = i then v else 0 := by
  rw [List.getD_eq_getElem?_getD, List.getElem?_set]
  by_cases h : i = j
  · subst h
    simp [hi]
  · have h' : ¬ j = i := fun e => h e.symm
    simp only [h, h', if_false, List.getElem?_replicate]
    split <;> rfl

theorem getD_set_set_replicate (n i i' j : ℕ) (v v' : K) (hi : i < n) (hi' : i' < n) :
    (((List.replicate n (0 : K)).set i v).set i' v').getD j 0
      = if j = i' then v' else if j = i then v else 0 := by
  rw [List.getD_eq_getElem?_getD, List.getElem?_set]
  by_cases h : i' = j
  · subst h
    simp [hi']
  · have h' : ¬ j = i' := fun e => h e.symm
    simp only [h, h', if_false]
    rw [← List.getD_eq_getElem?_getD, getD_set_replicate n i j v hi]

theorem interiorMass_single (x : List K) (i : ℕ) (v : K) (h1 : 1 ≤ i)
    (h2 : i + 1 < x.length) :
    interiorMass x ((List.replicate x.length 0).set i v)
      = v * ((x.getD (i + 1) 0 - x.getD (i - 1) 0) / 2) := by
  unfold interiorMass
  rw [Finset.sum_eq_single i]
  · rw [getD_set_replicate _ _ _ _ (by omega), if_pos rfl]
  · intro j _ hj
    rw [getD_set_replicate _ _ _ _ (by omega), if_neg hj, zero_mul]
  · intro hni
    exact absurd (Finset.mem_Ico.mpr ⟨h1, by omega⟩) hni

theorem interiorMass_pair (x : List K) (i : ℕ) (v v' : K) (h1 : 1 ≤ i)
    (h2 : i + 2 < x.length) :
    interiorMass x (((List.replicate x.length 0).set i v).set (i + 1) v')
      = v * ((x.getD (i + 1) 0 - x.getD (i - 1) 0) / 2)
        + v' * ((x.getD (i + 2) 0 - x.getD i 0) / 2) := by
  unfold interiorMass
  rw [Finset.sum_eq_add_of_mem i (i + 1) (Finset.mem_Ico.mpr ⟨h1, by omega⟩)
    (Finset.mem_Ico.mpr ⟨by omega, by omega⟩) (by omega)]
  · rw [getD_set_set_replicate _ _ _ _ _ _ (by omega) (by omega),
      getD_set_set_replicate _ _ _ _ _ _ (by omega) (by omega),
      if_neg (by omega), if_pos rfl, if_pos rfl]
    rfl
  · intro j _ hj
    rw [getD_set_set_replicate _ _ _ _ _ _ (by omega) (by omega),
      if_neg hj.2, if_neg hj.1, zero_mul]

end SeedingMass

section SeedingTheorem

variable {K : Type} [LinearOrderedField K]

theorem nonneg_of_mem_set_replicate (n i : ℕ) (v w : K) (hv : 0 ≤ v)
    (hw : w ∈ (List.replicate n (0 : K)).set i v) : 0 ≤ w := by
  rcases List.mem_or_eq_of_mem_set hw with h | h
  · rw [List.eq_of_mem_replicate h]
  · rw [h]; exact hv

/-- Away from the last interior node the seeding is safe and normalised: on a
strictly increasing grid of more than 3 nodes with `x[1] ≤ x0 < x[n-2]`,
whatever the comparison `close_enough` answers, `seedDensity` returns a density
of the length of the grid, with entries `≥ 0` and unit mass, and every index it
reads or writes lies in `[0, n)`. -/
theorem seedDensity_unit_mass (ce : K → K → Bool) (x : List K) (x0 : K)
    (hs : x.Sorted (· < ·)) (hn : 3 < x.length) (h1 : x[1] ≤ x0)
    (h2 : x0 < x[x.length - 2]) :
    ∃ p, (seedDensity ce x x0).result = Except.ok p ∧ p.length = x.length ∧
      (∀ v ∈ p, 0 ≤ v) ∧ interiorMass x p = 1 ∧
      ∀ e ∈ (seedDensity ce x x0).trace,
        ∃ i : ℕ, i < x.length ∧ (e = Event.read i ∨ e = Event.write i) := by
  obtain ⟨hu1, hu2, hxu, hxl⟩ := upper_bound_spec x x0 hs hn h1 h2
  set u := upper_bound x x0 with hu
  have hab : x[u - 2] < x[u - 1] := sorted_getElem_lt x hs _ _ (by omega) (by omega)
  have hbc : x[u - 1] < x[u] := sorted_getElem_lt x hs _ _ (by omega) (by omega)
  have hcd : x[u] < x[u + 1] := sorted_getElem_lt x hs _ _ (by omega) (by omega)
  have ga : x[u - 2]? = some x[u - 2] := List.getElem?_eq_getElem _
  have gb : x[u - 1]? = some x[u - 1] := List.getElem?_eq_getElem _
  have gc : x[u]? = some x[u] := List.getElem?_eq_getElem _
  have gd : x[u + 1]? = some x[u + 1] := List.getElem?_eq_getElem _
  have da : x.getD (u - 1 - 1) 0 = x[u - 2] := by
    rw [List.getD_eq_getElem?_getD, show u - 1 - 1 = u - 2 by omega, ga]; rfl
  have db : x.getD (u - 1) 0 = x[u - 1] := by
    rw [List.getD_eq_getElem?_getD, gb]; rfl
  have dc : x.getD (u - 1 + 1) 0 = x[u] := by
    rw [List.getD_eq_getElem?_getD, show u - 1 + 1 = u by omega, gc]; rfl
  have dd : x.getD (u + 1) 0 = x[u + 1] := by
    rw [List.getD_eq_getElem?_getD, gd]; rfl
  have dd' : x.getD (u - 1 + 2) 0 = x[u + 1] := by
    rw [show u - 1 + 2 = u + 1 by omega]; exact dd
  have heval := seedDensity_eval ce x x0 u _ _ _ _ hu.symm hu2 hu1 ga gb gc gd
  generalize x[u - 2] = a at *
  generalize x[u - 1] = b at *
  generalize x[u] = c at *
  generalize x[u + 1] = d at *
  have hdb : 0 < (d - b) / 2 := by linarith
  have hca : 0 < (c - a) / 2 := by linarith
  have hcb : 0 < c - b := by linarith
  have n1 : c - a ≠ 0 := by linarith
  have n2 : d - b ≠ 0 := by linarith
  have n3 : c - b ≠ 0 := hcb.ne'
  have i0 : ((u : ℤ) - 1) = ((u - 1 : ℕ) : ℤ) := by omega
  have i1 : ((u : ℤ) + 1) = ((u + 1 : ℕ) : ℤ) := by omega
  have i2 : ((u : ℤ) - 1 + 1) = ((u : ℕ) : ℤ) := by omega
  have i3 : ((u : ℤ) - 1 - 1) = ((u - 2 : ℕ) : ℤ) := by omega
  rw [heval]
  by_cases c1 : ce c x0 = true
  · rw [if_pos c1]
    refine ⟨_, rfl, by rw [List.length_set, List.length_replicate], ?_, ?_, ?_⟩
    · intro v hv
      exact nonneg_of_mem_set_replicate _ _ _ _ (by positivity) hv
    · rw [interiorMass_single x u _ (by omega) hu1, dd, db]
      field_simp
    · intro e he
      simp only [List.mem_cons, List.mem_singleton, List.not_mem_nil, or_false] at he
      rcases he with h | h | h | h
      · exact ⟨u, by omega, Or.inl h⟩
      · exact ⟨u + 1, by omega, Or.inl (by rw [h, i1])⟩
      · exact ⟨u - 1, by omega, Or.inl (by rw [h, i0])⟩
      · exact ⟨u, by omega, Or.inr h⟩
  · rw [if_neg c1]
    by_cases c2 : ce b x0 = true
    · rw [if_pos c2]
      refine ⟨_, rfl, by rw [List.length_set, List.length_replicate], ?_, ?_, ?_⟩
      · intro v hv
        exact nonneg_of_mem_set_replicate _ _ _ _ (by positivity) hv
      · rw [interiorMass_single x (u - 1) _ (by omega) (by omega), dc, da]
        field_simp
      · intro e he
        simp only [List.mem_cons, List.mem_singleton, List.not_mem_nil, or_false] at he
        rcases he with h | h | h | h | h
        · exact ⟨u, by omega, Or.inl h⟩
        · exact ⟨u - 1, by omega, Or.inl (by rw [h, i0])⟩
        · exact ⟨u, by omega, Or.inl (by rw [h, i2])⟩
        · exact ⟨u - 2, by omega, Or.inl (by rw [h, i3])⟩
        · exact ⟨u - 1, by omega, Or.inr (by rw [h, i0])⟩
    · rw [if_neg c2]
      have hP1 : 0 ≤ (c - x0) / (c - b) / ((c - a) / 2) :=
        div_nonneg (div_nonneg (by linarith) hcb.le) hca.le
      have hP2 : 0 ≤ (x0 - b) / (c - b) / ((d - b) / 2) :=
        div_nonneg (div_nonneg (by linarith) hcb.le) hdb.le
      refine ⟨_, rfl, by rw [List.length_set, List.length_set, List.length_replicate],
        ?_, ?_, ?_⟩
      · intro v hv
        rcases List.mem_or_eq_of_mem_set hv with h | h
        · exact nonneg_of_mem_set_replicate _ _ _ _ hP1 h
        · rw [h]; exact hP2
      · have hu' : u = u - 1 + 1 := by omega
        rw [show (((List.replicate x.length (0 : K)).set (u - 1)
            ((c - x0) / (c - b) / ((c - a) / 2))).set u ((x0 - b) / (c - b) / ((d - b) / 2)))
            = (((List.replicate x.length (0 : K)).set (u - 1)
            ((c - x0) / (c - b) / ((c - a) / 2))).set (u - 1 + 1)
              ((x0 - b) / (c - b) / ((d - b) / 2))) by rw [← hu'],
          interiorMass_pair x (u - 1) _ _ (by omega) (by omega), dc, da, dd', db]
        field_simp
        ring
      · intro e he
        simp only [List.mem_cons, List.mem_singleton, List.not_mem_nil, or_false] at he
        rcases he with h | h | h | h | h | h | h | h
        · exact ⟨u, by omega, Or.inl h⟩
        · exact ⟨u - 1, by omega, Or.inl (by rw [h, i0])⟩
        · exact ⟨u, by omega, Or.inl (by rw [h, i2])⟩
        · exact ⟨u - 2, by omega, Or.inl (by rw [h, i3])⟩
        · exact ⟨u + 1, by omega, Or.inl (by rw [h, i1])⟩
        · exact ⟨u - 1, by omega, Or.inl (by rw [h, i0])⟩
        · exact ⟨u - 1, by omega, Or.inr (by rw [h, i0])⟩
        · exact ⟨u, by omega, Or.inr h⟩

end SeedingTheorem

section ZeroFlowDerivativeTheorems

variable {K : Type} [LinearOrderedField K]

/-- C21: `flowSym4Order` is exact on polynomial densities of degree at most 4:
for every `h ≠ 0` and all `v`, `kappa`, `theta`, `sigma`, with the values of
`p` at `v - 2h`, `v - h`, `v`, `v + h`, `v + 2h`, it equals the flux
`0.5*sigma^2*v*p'(v) + (kappa*(v-theta) + sigma^2/2)*p(v)`, which is
`d/dv (0.5*sigma^2*v*p(v)) - kappa*(theta-v)*p(v)`. -/
theorem flowSym4Order_exact (kappa theta sigma v h : K) (hh : h ≠ 0) (p : Polynomial K)
    (hp : p.natDegree ≤ 4) :
    flowSym4Order kappa theta sigma v h (p.eval (v - 2 * h)) (p.eval (v - h)) (p.eval v)
        (p.eval (v + h)) (p.eval (v + 2 * h))
      = exactFlux kappa theta sigma v (p.eval v) (p.derivative.eval v) ∧
    (Polynomial.derivative (Polynomial.C (0.5 * sigma ^ 2) * Polynomial.X * p)).eval v
        - kappa * (theta - v) * p.eval v
      = exactFlux kappa theta sigma v (p.eval v) (p.derivative.eval v) := by
  have hsum : p = ∑ i in Finset.range 5, Polynomial.monomial i (p.coeff i) :=
    Polynomial.as_sum_range' p 5 (by omega)
  have h05 : (0.5 : K) = 1 / 2 := by norm_num
  constructor
  · rw [hsum]
    simp only [Finset.sum_range_succ, Finset.sum_range_zero, zero_add,
      Polynomial.eval_add, Polynomial.eval_monomial, Polynomial.derivative_add,
      Polynomial.derivative_monomial, flowSym4Order, exactFlux, h05]
    field_simp
    ring
  · simp only [Polynomial.derivative_mul, Polynomial.derivative_C, Polynomial.derivative_X,
      Polynomial.eval_add, Polynomial.eval_mul, Polynomial.eval_C, Polynomial.eval_X,
      Polynomial.eval_zero, Polynomial.eval_one, exactFlux, h05]
    ring

/-- C21 (witness): the density `X^4` at `v = 3` with `h = 1/2`. -/
theorem flowSym4Order_exact_witness :
    flowSym4Order (1 : ℚ) 2 3 3 (1 / 2)
        ((Polynomial.X ^ 4 : Polynomial ℚ).eval (3 - 2 * (1 / 2)))
        ((Polynomial.X ^ 4 : Polynomial ℚ).eval (3 - 1 / 2))
        ((Polynomial.X ^ 4 : Polynomial ℚ).eval 3)
        ((Polynomial.X ^ 4 : Polynomial ℚ).eval (3 + 1 / 2))
        ((Polynomial.X ^ 4 : Polynomial ℚ).eval (3 + 2 * (1 / 2)))
      = exactFlux (1 : ℚ) 2 3 3 ((Polynomial.X ^ 4 : Polynomial ℚ).eval 3)
          ((Polynomial.derivative (Polynomial.X ^ 4 : Polynomial ℚ)).eval 3) :=
  (flowSym4Order_exact 1 2 3 3 (1 / 2) (by norm_num) (Polynomial.X ^ 4) (by simp)).1

/-- C22: `fwd3Order` is exact on polynomial densities of degree at most 3: for
every `h ≠ 0`, with the values of `p` at `v - h`, `v`, `v + h`, `v + 2h`, it
equals the flux `0.5*sigma^2*v*p'(v) + (kappa*(v-theta) + sigma^2/2)*p(v)`. -/
theorem fwd3Order_exact (kappa theta sigma v h : K) (hh : h ≠ 0) (p : Polynomial K)
    (hp : p.natDegree ≤ 3) :
    fwd3Order kappa theta sigma v h (p.eval (v - h)) (p.eval v) (p.eval (v + h))
        (p.eval (v + 2 * h))
      = exactFlux kappa theta sigma v (p.eval v) (p.derivative.eval v) := by
  have hsum : p = ∑ i in Finset.range 4, Polynomial.monomial i (p.coeff i) :=
    Polynomial.as_sum_range' p 4 (by omega)
  have h05 : (0.5 : K) = 1 / 2 := by norm_num
  rw [hsum]
  simp only [Finset.sum_range_succ, Finset.sum_range_zero, zero_add,
    Polynomial.eval_add, Polynomial.eval_monomial, Polynomial.derivative_add,
    Polynomial.derivative_monomial, fwd3Order, exactFlux, h05]
  field_simp
  ring

/-- C22 (witness): the density `X^3` at `v = 3` with `h = 1/2`. -/
theorem fwd3Order_exact_witness :
    fwd3Order (1 : ℚ) 2 3 3 (1 / 2)
        ((Polynomial.X ^ 3 : Polynomial ℚ).eval (3 - 1 / 2))
        ((Polynomial.X ^ 3 : Polynomial ℚ).eval 3)
        ((Polynomial.X ^ 3 : Polynomial ℚ).eval (3 + 1 / 2))
        ((Polynomial.X ^ 3 : Polynomial ℚ).eval (3 + 2 * (1 / 2)))
      = exactFlux (1 : ℚ) 2 3 3 ((Polynomial.X ^ 3 : Polynomial ℚ).eval 3)
          ((Polynomial.derivative (Polynomial.X ^ 3 : Polynomial ℚ)).eval 3) :=
  fwd3Order_exact 1 2 3 3 (1 / 2) (by norm_num) (Polynomial.X ^ 3) (by simp)

/-- C23: `fwd2Order` and `flowSym2Order` are exact on polynomial densities of
degree at most 2: for every `h ≠ 0` both equal the flux
`0.5*sigma^2*v*p'(v) + (kappa*(v-theta) + sigma^2/2)*p(v)`, hence each other. -/
theorem fwd2Order_flowSym2Order_exact (kappa theta sigma v h : K) (hh : h ≠ 0)
    (p : Polynomial K) (hp : p.natDegree ≤ 2) :
    fwd2Order kappa theta sigma v h (p.eval v) (p.eval (v + h)) (p.eval (v + 2 * h))
      = exactFlux kappa theta sigma v (p.eval v) (p.derivative.eval v) ∧
    flowSym2Order kappa theta sigma v h (p.eval (v - h)) (p.eval v) (p.eval (v + h))
      = exactFlux kappa theta sigma v (p.eval v) (p.derivative.eval v) ∧
    fwd2Order kappa theta sigma v h (p.eval v) (p.eval (v + h)) (p.eval (v + 2 * h))
      = flowSym2Order kappa theta sigma v h (p.eval (v - h)) (p.eval v) (p.eval (v + h)) := by
  have hsum : p = ∑ i in Finset.range 3, Polynomial.monomial i (p.coeff i) :=
    Polynomial.as_sum_range' p 3 (by omega)
  have h05 : (0.5 : K) = 1 / 2 := by norm_num
  have h1 : fwd2Order kappa theta sigma v h (p.eval v) (p.eval (v + h)) (p.eval (v + 2 * h))
      = exactFlux kappa theta sigma v (p.eval v) (p.derivative.eval v) := by
    rw [hsum]
    simp only [Finset.sum_range_succ, Finset.sum_range_zero, zero_add,
      Polynomial.eval_add, Polynomial.eval_monomial, Polynomial.derivative_add,
      Polynomial.derivative_monomial, fwd2Order, exactFlux, h05]
    field_simp
    ring
  have h2 : flowSym2Order kappa theta sigma v h (p.eval (v - h)) (p.eval v) (p.eval (v + h))
      = exactFlux kappa theta sigma v (p.eval v) (p.derivative.eval v) := by
    rw [hsum]
    simp only [Finset.sum_range_succ, Finset.sum_range_zero, zero_add,
      Polynomial.eval_add, Polynomial.eval_monomial, Polynomial.derivative_add,
      Polynomial.derivative_monomial, flowSym2Order, exactFlux, h05]
    field_simp
    ring
  exact ⟨h1, h2, h1.trans h2.symm⟩

/-- C23 (witness): the density `X^2` at `v = 3` with `h = 1/2`. -/
theorem fwd2Order_flowSym2Order_exact_witness :
    fwd2Order (1 : ℚ) 2 3 3 (1 / 2) ((Polynomial.X ^ 2 : Polynomial ℚ).eval 3)
        ((Polynomial.X ^ 2 : Polynomial ℚ).eval (3 + 1 / 2))
        ((Polynomial.X ^ 2 : Polynomial ℚ).eval (3 + 2 * (1 / 2)))
      = flowSym2Order (1 : ℚ) 2 3 3 (1 / 2)
        ((Polynomial.X ^ 2 : Polynomial ℚ).eval (3 - 1 / 2))
        ((Polynomial.X ^ 2 : Polynomial ℚ).eval 3)
        ((Polynomial.X ^ 2 : Polynomial ℚ).eval (3 + 1 / 2)) :=
  (fwd2Order_flowSym2Order_exact 1 2 3 3 (1 / 2) (by norm_num) (Polynomial.X ^ 2)
    (by simp)).2.2

end ZeroFlowDerivativeTheorems

section BarrierVsBlackScholesTheorems

variable {K : Type} [LinearOrderedField K]

/-- C24 (as amended): in `testFdmHestonBarrierVsBlackScholes`, for every
analytic price `expected > 0` and every Heston price `calculated`, the failure
is reported exactly when `|calculated - expected| > 0.002 * |expected|`. -/
theorem barrierErrorReported_iff (calculated expected : K) (hpos : 0 < expected) :
    barrierErrorReported calculated expected = true ↔
      |calculated - expected| > 0.002 * |expected| := by
  unfold barrierErrorReported
  simp only [decide_eq_true_eq, gt_iff_lt]
  rw [lt_div_iff₀ hpos, abs_of_pos hpos]

/-- C24 (witness): `expected = 100`, `calculated = 101`. -/
theorem barrierErrorReported_iff_witness :
    barrierErrorReported (101 : ℚ) 100 = true ↔ |(101 : ℚ) - 100| > 0.002 * |(100 : ℚ)| :=
  barrierErrorReported_iff 101 100 (by norm_num)

/-- C24 (counterexample): with `expected = -1` and `calculated = 0` the relative
error exceeds the tolerance, `|calculated - expected| = 1 > 0.002 * |expected|`,
and no failure is reported. -/
theorem barrierErrorReported_negative_counterexample :
    (-1 : ℚ) ≠ 0 ∧ |(0 : ℚ) - (-1)| > 0.002 * |(-1 : ℚ)| ∧
      barrierErrorReported (0 : ℚ) (-1) = false := by
  refine ⟨by norm_num, by norm_num, ?_⟩
  unfold barrierErrorReported
  simp only [decide_eq_false_iff_not, not_lt, gt_iff_lt]
  norm_num

end BarrierVsBlackScholesTheorems

section LeverageTestEvolveTheorems

variable {K : Type} [LinearOrderedField K] {P : Type}

theorem evolveLoop_times (step : K → P → K → P) (dt : K) (n : ℕ) (t : K) (p : P) :
    (evolveLoop step dt n t p).2.2 = (List.range n).map (fun (i : ℕ) => t + (i : K) * dt) := by
  induction n generalizing t p with
  | zero => simp [evolveLoop]
  | succ n ih =>
    simp only [evolveLoop, ih, List.range_succ_eq_map, List.map_cons, List.map_map]
    refine congrArg₂ _ (by simp) (List.map_congr_left ?_)
    intro i _
    simp only [Function.comp, Nat.cast_succ]
    ring

theorem leverageTestEvolve_times (step : K → P → K → P) (maturity eT : K) (tGrid : ℕ)
    (p : P) :
    (leverageTestEvolve step maturity eT tGrid p).2.2
      = (List.range tGrid).map
          (fun (i : ℕ) => ((i : K) + 1) * ((maturity - eT) / (tGrid : K))) := by
  unfold leverageTestEvolve
  rw [evolveLoop_times]
  refine List.map_congr_left ?_
  intro i _
  ring

/-- C25 (the code in the test): with `maturity = 1`, `eT = 2/365` and
`tGrid = 50`, hence `dt = (1 - 2/365)/50`, the times handed to `evolver.step`
are `dt, 2*dt, ..., 50*dt`: the first is `dt`, not `eT + dt`, and the last is
`maturity - eT`, not `maturity`. -/
theorem leverageTestEvolve_stops_before_maturity (step : ℚ → P → ℚ → P) (p : P) :
    (leverageTestEvolve step 1 (2 / 365) 50 p).2.2
        = (List.range 50).map (fun (i : ℕ) => ((i : ℚ) + 1) * ((1 - 2 / 365) / 50)) ∧
      (leverageTestEvolve step 1 (2 / 365) 50 p).2.2.head?
        = some ((1 - 2 / 365) / 50) ∧
      (leverageTestEvolve step 1 (2 / 365) 50 p).2.2.getLast? = some (1 - 2 / 365) ∧
      ((1 - 2 / 365) / 50 : ℚ) ≠ 2 / 365 + (1 - 2 / 365) / 50 ∧ (1 - 2 / 365 : ℚ) ≠ 1 := by
  have h := leverageTestEvolve_times step (1 : ℚ) (2 / 365) 50 p
  simp only [Nat.cast_ofNat] at h
  refine ⟨h, ?_, ?_, by norm_num, by norm_num⟩
  · rw [h]
    simp [List.range_succ_eq_map]
  · rw [h, List.range_succ]
    simp
    norm_num

end LeverageTestEvolveTheorems

section EuropeanWithDividendsTheorems

/-- C26 (the code of the test): `testFdmHestonEuropeanWithDividends` is
announced with "European option", and the exercise it gives to the
`DividendVanillaOption` is an `AmericanExercise` with the last date
28 March 2005, not a European exercise. -/
theorem europeanWithDividends_exercise_is_american :
    (testFdmHestonEuropeanWithDividends : DividendTestSetup ℚ).message
        = "Testing FDM with European option with dividends in Heston model..." ∧
      (testFdmHestonEuropeanWithDividends : DividendTestSetup ℚ).contract.exercise
        = ExerciseStyle.American ∧
      (testFdmHestonEuropeanWithDividends : DividendTestSetup ℚ).contract.exercise
        ≠ ExerciseStyle.European ∧
      (testFdmHestonEuropeanWithDividends : DividendTestSetup ℚ).contract.exerciseDate
        = ⟨28, 3, 2005⟩ := by
  refine ⟨rfl, rfl, ?_, rfl⟩
  simp [testFdmHestonEuropeanWithDividends]

end EuropeanWithDividendsTheorems

section QlMatrixLemmas

variable {K : Type} {D : Type}

theorem QlMatrix.write_ok (m : QlMatrix K) (i j : ℕ) (v : K) (hi : i < m.rows)
    (hj : j < m.columns) :
    m.write i j v
      = Except.ok ⟨m.rows, m.columns, fun a b => if a = i ∧ b = j then v else m.entry a b⟩ := by
  unfold QlMatrix.write
  rw [if_pos ⟨hi, hj⟩]

theorem QlMatrix.write_error (m : QlMatrix K) (i j : ℕ) (v : K) (e : Failure)
    (h : m.write i j v = Except.error e) : e = Failure.outOfRange := by
  unfold QlMatrix.write at h
  split at h
  · cases h
  · cases h
    rfl

theorem zipWith_yearFraction (yearFraction : D → K) (times : List K) (dates : List D)
    (h : times.length = dates.length) :
    List.zipWith (fun _ date => yearFraction date) times dates = dates.map yearFraction := by
  induction times generalizing dates with
  | nil =>
    cases dates with
    | nil => rfl
    | cons d ds => cases h
  | cons t ts ih =>
    cases dates with
    | nil => cases h
    | cons d ds =>
      simp only [List.zipWith_cons_cons, List.map_cons]
      rw [ih ds (by simpa using h)]

end QlMatrixLemmas

section LeverageFromVolSurfaceTheorems

variable {K : Type} [LinearOrderedField K] {D : Type} {S : Type}

theorem fillSurfaceRow_error (localVol : D → K → Except String K) (strike : K) (i : ℕ)
    (ds : List D) (j : ℕ) (m : QlMatrix K) (e : Failure)
    (h : fillSurfaceRow localVol strike i ds j m = Except.error e) :
    e = Failure.outOfRange := by
  induction ds generalizing j m with
  | nil => cases h
  | cons d rest ih =>
    unfold fillSurfaceRow at h
    cases hw : m.write i j (surfaceEntry localVol d strike) with
    | ok m1 =>
      rw [hw] at h
      exact ih (j + 1) m1 h
    | error e1 =>
      rw [hw] at h
      cases h
      exact QlMatrix.write_error m i j _ e hw

theorem fillSurface_error (localVol : D → K → Except String K) (dates : List D)
    (ss : List K) (i : ℕ) (m : QlMatrix K) (e : Failure)
    (h : fillSurface localVol dates ss i m = Except.error e) :
    e = Failure.outOfRange := by
  induction ss generalizing i m with
  | nil => cases h
  | cons s rest ih =>
    unfold fillSurface at h
    cases hw : fillSurfaceRow localVol s i dates 0 m with
    | ok m1 =>
      rw [hw] at h
      exact ih (i + 1) m1 h
    | error e1 =>
      rw [hw] at h
      cases h
      exact fillSurfaceRow_error localVol s i dates 0 m e hw

theorem fillSurfaceRow_ok (localVol : D → K → Except String K) (strike : K) (i : ℕ)
    (ds : List D) (j0 : ℕ) (m : QlMatrix K) (hi : i < m.rows)
    (hj : j0 + ds.length ≤ m.columns) :
    ∃ m', fillSurfaceRow localVol strike i ds j0 m = Except.ok m' ∧
      m'.rows = m.rows ∧ m'.columns = m.columns ∧
      (∀ b d, j0 ≤ b → ds[b - j0]? = some d →
        m'.entry i b = surfaceEntry localVol d strike) ∧
      (∀ a b, (a ≠ i ∨ b < j0 ∨ j0 + ds.length ≤ b) → m'.entry a b = m.entry a b) := by
  induction ds generalizing j0 m with
  | nil =>
    refine ⟨m, rfl, rfl, rfl, ?_, fun _ _ _ => rfl⟩
    intro b d _ hd
    simp at hd
  | cons d0 rest ih =>
    have hlen : (d0 :: rest).length = rest.length + 1 := rfl
    rw [hlen] at hj
    have hw := QlMatrix.write_ok m i j0 (surfaceEntry localVol d0 strike) hi (by omega)
    obtain ⟨m', hm', hr, hc, hset, hkeep⟩ :=
      ih (j0 + 1)
        ⟨m.rows, m.columns,
          fun a b => if a = i ∧ b = j0 then surfaceEntry localVol d0 strike else m.entry a b⟩
        hi (by show j0 + 1 + rest.length ≤ m.columns; omega)
    refine ⟨m', ?_, hr, hc, ?_, ?_⟩
    · unfold fillSurfaceRow
      rw [hw]
      exact hm'
    · intro b d hb hd
      rcases Nat.eq_or_lt_of_le hb with hEq | hlt
      · subst hEq
        simp only [Nat.sub_self, List.getElem?_cons_zero, Option.some.injEq] at hd
        subst hd
        rw [hkeep i j0 (Or.inr (Or.inl (Nat.lt_succ_self j0)))]
        simp
      · have hb1 : b - j0 = (b - (j0 + 1)) + 1 := by omega
        rw [hb1, List.getElem?_cons_succ] at hd
        exact hset b d (by omega) hd
    · intro a b hab
      rw [hlen] at hab
      rw [hkeep a b (by omega)]
      have hne : ¬ (a = i ∧ b = j0) := by omega
      simp only [hne, if_false]

theorem fillSurface_ok (localVol : D → K → Except String K) (dates : List D)
    (ss : List K) (i0 : ℕ) (m : QlMatrix K) (hi : i0 + ss.length ≤ m.rows)
    (hj : dates.length ≤ m.columns) :
    ∃ m', fillSurface localVol dates ss i0 m = Except.ok m' ∧
      m'.rows = m.rows ∧ m'.columns = m.columns ∧
      (∀ a b s d, i0 ≤ a → ss[a - i0]? = some s → dates[b]? = some d →
        m'.entry a b = surfaceEntry localVol d s) ∧
      (∀ a b, (a < i0 ∨ i0 + ss.length ≤ a ∨ dates.length ≤ b) →
        m'.entry a b = m.entry a b) := by
  induction ss generalizing i0 m with
  | nil =>
    refine ⟨m, rfl, rfl, rfl, ?_, fun _ _ _ => rfl⟩
    intro a b s d _ hs
    simp at hs
  | cons s0 rest ih =>
    have hlen : (s0 :: rest).length = rest.length + 1 := rfl
    rw [hlen] at hi
    obtain ⟨m1, hm1, hr1, hc1, hset1, hkeep1⟩ :=
      fillSurfaceRow_ok localVol s0 i0 dates 0 m (by omega) (by omega)
    obtain ⟨m', hm', hr, hc, hset, hkeep⟩ :=
      ih (i0 + 1) m1 (by rw [hr1]; omega) (by rw [hc1]; exact hj)
    refine ⟨m', ?_, hr.trans hr1, hc.trans hc1, ?_, ?_⟩
    · unfold fillSurface
      rw [hm1]
      exact hm'
    · intro a b s d ha hs hd
      rcases Nat.eq_or_lt_of_le ha with hEq | hlt
      · subst hEq
        simp only [Nat.sub_self, List.getElem?_cons_zero, Option.some.injEq] at hs
        subst hs
        rw [hkeep i0 b (Or.inl (Nat.lt_succ_self i0))]
        exact hset1 b d (Nat.zero_le b) (by simpa using hd)
      · have ha1 : a - i0 = (a - (i0 + 1)) + 1 := by omega
        rw [ha1, List.getElem?_cons_succ] at hs
        exact hset a b s d (by omega) hs hd
    · intro a b hab
      rw [hlen] at hab
      rcases hab with h | h | h
      · rw [hkeep a b (Or.inl (by omega)), hkeep1 a b (Or.inl (by omega))]
      · rw [hkeep a b (Or.inr (Or.inl (by omega))), hkeep1 a b (Or.inl (by omega))]
      · rw [hkeep a b (Or.inr (Or.inr h)), hkeep1 a b (Or.inr (Or.inr (by omega)))]

theorem surfaceEntry_eq_fallback_iff (localVol : D → K → Except String K) (date : D)
    (strike : K) :
    surfaceEntry localVol date strike = 0.2 ↔
      ((∃ e, localVol date strike = Except.error e) ∨
        localVol date strike = Except.ok 0.2) := by
  unfold surfaceEntry
  cases h : localVol date strike with
  | ok v => simp
  | error e => simp

theorem createLeverageFctFromVolSurface_mismatch_iff (localVol : D → K → Except String K)
    (yearFraction : D → K) (bicubicSpline : List K → List K → QlMatrix K → S)
    (strikes : List K) (dates : List D) (times : List K) (surface : QlMatrix K) :
    createLeverageFctFromVolSurface localVol yearFraction bicubicSpline strikes dates times
        surface = Except.error (Failure.required "mismatch") ↔
      times.length ≠ dates.length := by
  unfold createLeverageFctFromVolSurface
  by_cases h : times.length = dates.length
  · rw [if_pos h]
    refine ⟨fun hE => ?_, fun hne => absurd h hne⟩
    exfalso
    cases hf : fillSurface localVol dates strikes 0 surface with
    | ok m1 =>
      rw [hf] at hE
      cases hE
    | error e =>
      rw [hf] at hE
      have := fillSurface_error localVol dates strikes 0 surface e hf
      subst this
      cases hE
  · rw [if_neg h]
    exact ⟨fun _ => h, fun _ => rfl⟩

/-- C27: for a matrix `surface` with at least `strikes.size()` rows and
`dates.size()` columns, `createLeverageFctFromVolSurface` fails with
"mismatch" if and only if `times.size() != dates.size()`; otherwise it returns,
whatever the local volatility lookups do: `times[j]` is the year fraction of
`dates[j]`, and for every strike index `i` and date index `j` the entry
`surface[i][j]` is the value of the lookup `localVol(dates[j], strikes[i])`
when it succeeds and `0.2` when it raises, so that it is `0.2` exactly when the
lookup raises or returns `0.2` itself; the spline is built from these. -/
theorem createLeverageFctFromVolSurface_spec (localVol : D → K → Except String K)
    (yearFraction : D → K) (bicubicSpline : List K → List K → QlMatrix K → S)
    (strikes : List K) (dates : List D) (times : List K) (surface : QlMatrix K)
    (hrows : strikes.length ≤ surface.rows) (hcolumns : dates.length ≤ surface.columns) :
    (createLeverageFctFromVolSurface localVol yearFraction bicubicSpline strikes dates times
        surface = Except.error (Failure.required "mismatch") ↔
      times.length ≠ dates.length) ∧
    (times.length = dates.length →
      ∃ r, createLeverageFctFromVolSurface localVol yearFraction bicubicSpline strikes dates
          times surface = Except.ok r ∧
        r.times.length = times.length ∧
        (∀ (j : ℕ) (hj : j < dates.length), r.times[j]? = some (yearFraction dates[j])) ∧
        (∀ (i j : ℕ) (hi : i < strikes.length) (hj : j < dates.length),
          (∀ v, localVol dates[j] strikes[i] = Except.ok v → r.surface.entry i j = v) ∧
          (∀ e, localVol dates[j] strikes[i] = Except.error e →
            r.surface.entry i j = 0.2) ∧
          (r.surface.entry i j = 0.2 ↔
            ((∃ e, localVol dates[j] strikes[i] = Except.error e) ∨
              localVol dates[j] strikes[i] = Except.ok 0.2))) ∧
        r.leverage = bicubicSpline r.times strikes r.surface) := by
  refine ⟨createLeverageFctFromVolSurface_mismatch_iff localVol yearFraction bicubicSpline
    strikes dates times surface, ?_⟩
  intro hlen
  obtain ⟨m', hm', _, _, hset, _⟩ :=
    fillSurface_ok localVol dates strikes 0 surface (by omega) hcolumns
  refine ⟨⟨dates.map yearFraction, m', bicubicSpline (dates.map yearFraction) strikes m'⟩,
    ?_, ?_, ?_, ?_, rfl⟩
  · unfold createLeverageFctFromVolSurface
    rw [if_pos hlen]
    simp only [zipWith_yearFraction yearFraction times dates hlen, hm']
  · simp [hlen]
  · intro j hj
    simp [hj]
  · intro i j hi hj
    have hentry : m'.entry i j = surfaceEntry localVol dates[j] strikes[i] :=
      hset i j strikes[i] dates[j] (Nat.zero_le i)
        (by simp [hi]) (by simp [hj])
    show (∀ v, localVol dates[j] strikes[i] = Except.ok v → m'.entry i j = v) ∧
      (∀ e, localVol dates[j] strikes[i] = Except.error e → m'.entry i j = 0.2) ∧
      (m'.entry i j = 0.2 ↔ _)
    rw [hentry]
    refine ⟨?_, ?_, surfaceEntry_eq_fallback_iff localVol dates[j] strikes[i]⟩
    · intro v hv
      unfold surfaceEntry
      rw [hv]
    · intro e he
      unfold surfaceEntry
      rw [he]

/-- C27 (witness): two strikes `1, 2`, two dates `0, 1`, a `2 x 2` matrix, and a
local volatility that raises at the date `0` and is `strike + date` at the
date `1`: the function returns, `surface[0][0]` is the fallback `0.2` and
`surface[0][1]` is the value `2` of the lookup. -/
theorem createLeverageFctFromVolSurface_spec_witness :
    ∃ r, createLeverageFctFromVolSurface
        (fun (d : ℕ) (k : ℚ) =>
          if d = 0 then Except.error "no local volatility" else Except.ok (k + d))
        (fun (d : ℕ) => (d : ℚ) / 365) (fun _ _ _ => ()) [1, 2] [0, 1] [0, 0]
        ⟨2, 2, fun _ _ => 0⟩ = Except.ok r ∧
      r.times[1]? = some ((1 : ℚ) / 365) ∧
      r.surface.entry 0 0 = 0.2 ∧ r.surface.entry 0 1 = 2 := by
  obtain ⟨r, hr, _, ht, he, _⟩ :=
    (createLeverageFctFromVolSurface_spec
      (fun (d : ℕ) (k : ℚ) =>
        if d = 0 then Except.error "no local volatility" else Except.ok (k + d))
      (fun (d : ℕ) => (d : ℚ) / 365) (fun _ _ _ => ()) [1, 2] [0, 1] [0, 0]
      ⟨2, 2, fun _ _ => 0⟩ (by decide) (by decide)).2 rfl
  refine ⟨r, hr, ?_, ?_, ?_⟩
  · have := ht 1 (by decide)
    simpa using this
  · exact (he 0 0 (by decide) (by decide)).2.1 "no local volatility" (by simp)
  · exact (he 0 1 (by decide) (by decide)).1 2 (by simp; norm_num)

end LeverageFromVolSurfaceTheorems

end FdHeston
